import Mathlib

/-
Verification of the battleship field validator (src/main.py).

The Python source is shallowly embedded: every validator method becomes a
Lean function.  Python exceptions are modelled with `Except PyErr`:
`ValueError` (raised by the validators and caught by `validate_battlefield`)
and `IndexError` (raised by unguarded list indexing, never caught).
Boards are lists of lists of naturals, mirroring `List[List[int]]`
restricted to the non-negative cell values the claims are about;
Python truthiness of a cell is `≠ 0`.
-/

namespace Battleship

/-- Python exception kinds relevant to the source: `ValueError` is raised by
validators and caught by the orchestrator, `IndexError` escapes. -/
inductive PyErr where
  | valueError : PyErr
  | indexError : PyErr
deriving DecidableEq, Repr

abbrev Board := List (List Nat)

/-- `Validator.board_length = 10` in the source. -/
def board_length : Nat := 10

/-- `AbstractShipValidator.inspect_cell`: `self.board[i_coord][j_coord]`,
an unguarded double index (IndexError when out of range; the source only
reaches it with non-negative indices). -/
def inspect_cell (board : Board) (i j : Nat) : Except PyErr Nat :=
  match board[i]? with
  | none => .error .indexError
  | some row =>
    match row[j]? with
    | none => .error .indexError
    | some c => .ok c

/-- `AbstractShipValidator.get_neighbor_cell_status`: bounds-guarded read,
returns 0 outside `[0, board_length)`. -/
def get_neighbor_cell_status (board : Board) (i j : Int) : Except PyErr Nat :=
  if 0 ≤ i ∧ i < (board_length : Int) ∧ 0 ≤ j ∧ j < (board_length : Int) then
    inspect_cell board i.toNat j.toNat
  else
    .ok 0

/-- `BoardValidator.validate`: row count and every row length must equal 10. -/
def board_validate (board : Board) : Except PyErr Bool :=
  if board.length ≠ board_length then .error .valueError
  else if board.any (fun column => column.length ≠ board_length) then .error .valueError
  else .ok true

/-- The boolean test of `check_if_neighbor_cells_set_up_correct`, on the four
orthogonal neighbor statuses (`sum in (0,1)`, or a collinear occupied pair). -/
def straight_ok (left right upper lower : Nat) : Bool :=
  if upper + left + right + lower = 0 ∨ upper + left + right + lower = 1 then true
  else if left ≠ 0 ∧ right ≠ 0 ∧ ¬(upper ≠ 0 ∨ lower ≠ 0) then true
  else if upper ≠ 0 ∧ lower ≠ 0 ∧ ¬(left ≠ 0 ∨ right ≠ 0) then true
  else false

/-- The boolean test of `check_if_cross_cells_set_up_correct`:
no diagonal neighbor may be occupied. -/
def cross_ok (left_upper left_lower right_upper right_lower : Nat) : Bool :=
  if ¬(left_upper ≠ 0 ∨ left_lower ≠ 0 ∨ right_upper ≠ 0 ∨ right_lower ≠ 0) then true
  else false

/-- `BattleShipsValidator.check_if_neighbor_cells_set_up_correct`.
In the source, `left`/`right` vary the first index and `upper`/`lower` the
second; a failed check raises `ValueError`. -/
def check_if_neighbor_cells_set_up_correct (board : Board) (i j : Nat) :
    Except PyErr Bool :=
  match get_neighbor_cell_status board ((i : Int) - 1) (j : Int) with
  | .error e => .error e
  | .ok left =>
    match get_neighbor_cell_status board ((i : Int) + 1) (j : Int) with
    | .error e => .error e
    | .ok right =>
      match get_neighbor_cell_status board (i : Int) ((j : Int) - 1) with
      | .error e => .error e
      | .ok upper =>
        match get_neighbor_cell_status board (i : Int) ((j : Int) + 1) with
        | .error e => .error e
        | .ok lower =>
          if straight_ok left right upper lower then .ok true
          else .error .valueError

/-- `BattleShipsValidator.check_if_cross_cells_set_up_correct`. -/
def check_if_cross_cells_set_up_correct (board : Board) (i j : Nat) :
    Except PyErr Bool :=
  match get_neighbor_cell_status board ((i : Int) - 1) ((j : Int) + 1) with
  | .error e => .error e
  | .ok left_upper =>
    match get_neighbor_cell_status board ((i : Int) - 1) ((j : Int) - 1) with
    | .error e => .error e
    | .ok left_lower =>
      match get_neighbor_cell_status board ((i : Int) + 1) ((j : Int) + 1) with
      | .error e => .error e
      | .ok right_upper =>
        match get_neighbor_cell_status board ((i : Int) + 1) ((j : Int) - 1) with
        | .error e => .error e
        | .ok right_lower =>
          if cross_ok left_upper left_lower right_upper right_lower then .ok true
          else .error .valueError

/-- The index pairs visited by `for i_index, column in enumerate(self.board):
for j_index, _ in enumerate(column)`. -/
def allCells (board : Board) : List (Nat × Nat) :=
  (List.range board.length).flatMap
    (fun i => (List.range (board.getD i []).length).map (fun j => (i, j)))

/-- Loop body list of `BattleShipsValidator.validate`: skip empty cells,
run both contact checks on occupied ones, first raise aborts. -/
def ships_validate_aux (board : Board) : List (Nat × Nat) → Except PyErr Bool
  | [] => .ok true
  | (i, j) :: rest =>
    match inspect_cell board i j with
    | .error e => .error e
    | .ok c =>
      if c = 0 then ships_validate_aux board rest
      else
        match check_if_neighbor_cells_set_up_correct board i j with
        | .error e => .error e
        | .ok _ =>
          match check_if_cross_cells_set_up_correct board i j with
          | .error e => .error e
          | .ok _ => ships_validate_aux board rest

/-- `BattleShipsValidator.validate`. -/
def ships_validate (board : Board) : Except PyErr Bool :=
  ships_validate_aux board (allCells board)

/-- The per-run decrementing tally `ship_length_to_count`; counts can go
negative in Python, hence `Int`. -/
structure ShipCounts where
  c1 : Int
  c2 : Int
  c3 : Int
  c4 : Int
deriving DecidableEq, Repr

/-- `{key: 5 - key for key in range(1, 5)}`. -/
def initCounts : ShipCounts := ⟨4, 3, 2, 1⟩

def zeroCounts : ShipCounts := ⟨0, 0, 0, 0⟩

/-- `self.ship_length_to_count[L] -= 1`. -/
def decAt (cnt : ShipCounts) (L : Nat) : ShipCounts :=
  match L with
  | 1 => { cnt with c1 := cnt.c1 - 1 }
  | 2 => { cnt with c2 := cnt.c2 - 1 }
  | 3 => { cnt with c3 := cnt.c3 - 1 }
  | 4 => { cnt with c4 := cnt.c4 - 1 }
  | _ => cnt

/-- Statuses of a list of coordinates, each via the guarded read; Python
builds the whole list before `all`, so the first raise wins. -/
def cells_status (board : Board) : List (Int × Int) → Except PyErr (List Nat)
  | [] => .ok []
  | (i, j) :: ps =>
    match get_neighbor_cell_status board i j with
    | .error e => .error e
    | .ok c =>
      match cells_status board ps with
      | .error e => .error e
      | .ok cs => .ok (c :: cs)

/-- `BattleShipsQuantityValidator.validate_ship_vertically`:
cells at `(i+k, j)` for `k in range(1, length)` must all be occupied. -/
def validate_ship_vertically (board : Board) (i j len : Nat) : Except PyErr Bool :=
  match cells_status board
      ((List.range' 1 (len - 1)).map (fun k => (((i + k : Nat) : Int), (j : Int)))) with
  | .error e => .error e
  | .ok cells => .ok (cells.all (fun c => c ≠ 0))

/-- `BattleShipsQuantityValidator.validate_ship_horizontally`. -/
def validate_ship_horizontally (board : Board) (i j len : Nat) : Except PyErr Bool :=
  match cells_status board
      ((List.range' 1 (len - 1)).map (fun k => ((i : Int), ((j + k : Nat) : Int)))) with
  | .error e => .error e
  | .ok cells => .ok (cells.all (fun c => c ≠ 0))

/-- `self.board[i][j] = 0`: unguarded write, IndexError when out of range. -/
def setCell0 (board : Board) (i j : Nat) : Except PyErr Board :=
  match board[i]? with
  | none => .error .indexError
  | some row =>
    if j < row.length then .ok (board.set i (row.set j 0))
    else .error .indexError

/-- Zero a list of coordinates in order. -/
def drop_cells (board : Board) : List (Nat × Nat) → Except PyErr Board
  | [] => .ok board
  | (i, j) :: ps =>
    match setCell0 board i j with
    | .error e => .error e
    | .ok board1 => drop_cells board1 ps

/-- `BattleShipsQuantityValidator.drop_vertically`. -/
def drop_vertically (board : Board) (i j len : Nat) : Except PyErr Board :=
  drop_cells board ((List.range' 1 (len - 1)).map (fun k => (i + k, j)))

/-- `BattleShipsQuantityValidator.drop_horizontally`. -/
def drop_horizontally (board : Board) (i j len : Nat) : Except PyErr Board :=
  drop_cells board ((List.range' 1 (len - 1)).map (fun k => (i, j + k)))

/-- `BattleShipsQuantityValidator.drop_ship`: check vertically, drop if
matched, then check horizontally (on the possibly already mutated board),
drop if matched; report whether either matched. -/
def drop_ship (board : Board) (i j len : Nat) : Except PyErr (Bool × Board) :=
  match validate_ship_vertically board i j len with
  | .error e => .error e
  | .ok vertical =>
    match (if vertical then drop_vertically board i j len else .ok board) with
    | .error e => .error e
    | .ok board1 =>
      match validate_ship_horizontally board1 i j len with
      | .error e => .error e
      | .ok horizontal =>
        match (if horizontal then drop_horizontally board1 i j len else .ok board1) with
        | .error e => .error e
        | .ok board2 => .ok (vertical || horizontal, board2)

/-- Loop body of `BattleShipsQuantityValidator.validate` at one cell: for an
occupied cell try `drop_flagman` (length 4), `drop_cruiser` (3),
`drop_destroyer` (2), else count a 1-length ship. -/
def quantity_step_code (board : Board) (cnt : ShipCounts) (i j : Nat) :
    Except PyErr (Board × ShipCounts) :=
  match inspect_cell board i j with
  | .error e => .error e
  | .ok c =>
    if c = 0 then .ok (board, cnt)
    else
      match drop_ship board i j 4 with
      | .error e => .error e
      | .ok (m4, b4) =>
        if m4 then .ok (b4, decAt cnt 4)
        else
          match drop_ship b4 i j 3 with
          | .error e => .error e
          | .ok (m3, b3) =>
            if m3 then .ok (b3, decAt cnt 3)
            else
              match drop_ship b3 i j 2 with
              | .error e => .error e
              | .ok (m2, b2) =>
                if m2 then .ok (b2, decAt cnt 2)
                else .ok (b2, decAt cnt 1)

/-- The scan of `BattleShipsQuantityValidator.validate` over the cell list. -/
def quantity_validate_aux (board : Board) (cnt : ShipCounts) :
    List (Nat × Nat) → Except PyErr (Board × ShipCounts)
  | [] => .ok (board, cnt)
  | (i, j) :: rest =>
    match quantity_step_code board cnt i j with
    | .error e => .error e
    | .ok (board1, cnt1) => quantity_validate_aux board1 cnt1 rest

/-- `BattleShipsQuantityValidator.validate` run on the private deep copy
(value semantics make the copy the argument itself); also returns the final
working board, used by the heap model below. -/
def quantity_validate_result (board : Board) : Except PyErr (Board × ShipCounts) :=
  quantity_validate_aux board initCounts (allCells board)

/-- `BattleShipsQuantityValidator.validate`: scan, then require every count
to be exactly zero. -/
def quantity_validate (board : Board) : Except PyErr Bool :=
  match quantity_validate_result board with
  | .error e => .error e
  | .ok (_, cnt) => if cnt = zeroCounts then .ok true else .error .valueError

/-- `validate_battlefield`: run the three validators in order, catch
`ValueError` as `False`, let `IndexError` escape, return `True` otherwise. -/
def validate_battlefield (field : Board) : Except PyErr Bool :=
  match board_validate field with
  | .error .valueError => .ok false
  | .error .indexError => .error .indexError
  | .ok _ =>
    match ships_validate field with
    | .error .valueError => .ok false
    | .error .indexError => .error .indexError
    | .ok _ =>
      match quantity_validate field with
      | .error .valueError => .ok false
      | .error .indexError => .error .indexError
      | .ok _ => .ok true

end Battleship


namespace Battleship

/-! ## Pure model

Total (error-free) counterparts of the embedded functions.  On boards that
pass the shape check the embedded functions are proved to coincide with
these, which is also the in-bounds-indexing safety argument. -/

/-- Total cell read: the value at `(i, j)`, 0 outside the stored lists. -/
def cell (board : Board) (i j : Nat) : Nat := (board.getD i []).getD j 0

/-- Pure counterpart of `get_neighbor_cell_status`. -/
def gnPure (board : Board) (i j : Int) : Nat :=
  if 0 ≤ i ∧ i < (board_length : Int) ∧ 0 ≤ j ∧ j < (board_length : Int) then
    cell board i.toNat j.toNat
  else 0

/-- The structural precondition checked by `BoardValidator`. -/
def shape10 (board : Board) : Bool :=
  board.length == board_length && board.all (fun column => column.length == board_length)

/-- Pure counterpart of `check_if_neighbor_cells_set_up_correct`. -/
def check1Pure (board : Board) (i j : Nat) : Bool :=
  straight_ok (gnPure board ((i : Int) - 1) (j : Int))
    (gnPure board ((i : Int) + 1) (j : Int))
    (gnPure board (i : Int) ((j : Int) - 1))
    (gnPure board (i : Int) ((j : Int) + 1))

/-- Pure counterpart of `check_if_cross_cells_set_up_correct`. -/
def check2Pure (board : Board) (i j : Nat) : Bool :=
  cross_ok (gnPure board ((i : Int) - 1) ((j : Int) + 1))
    (gnPure board ((i : Int) - 1) ((j : Int) - 1))
    (gnPure board ((i : Int) + 1) ((j : Int) + 1))
    (gnPure board ((i : Int) + 1) ((j : Int) - 1))

/-- Pure counterpart of `BattleShipsValidator.validate`. -/
def shipsPure (board : Board) : Bool :=
  (allCells board).all
    (fun p => decide (cell board p.1 p.2 = 0)
      || (check1Pure board p.1 p.2 && check2Pure board p.1 p.2))

/-- Pure counterpart of `validate_ship_vertically`. -/
def vertExtPure (board : Board) (i j len : Nat) : Bool :=
  (List.range' 1 (len - 1)).all
    (fun k => decide (gnPure board (((i + k : Nat)) : Int) (j : Int) ≠ 0))

/-- Pure counterpart of `validate_ship_horizontally`. -/
def horizExtPure (board : Board) (i j len : Nat) : Bool :=
  (List.range' 1 (len - 1)).all
    (fun k => decide (gnPure board (i : Int) (((j + k : Nat)) : Int) ≠ 0))

/-- Total write of a 0 at `(i, j)`; out-of-range indices leave the board
unchanged (they never occur on shape-checked runs). -/
def clearCell (board : Board) (i j : Nat) : Board :=
  board.set i ((board.getD i []).set j 0)

/-- Clear a list of coordinates in order. -/
def clearList (board : Board) : List (Nat × Nat) → Board
  | [] => board
  | (i, j) :: ps => clearList (clearCell board i j) ps

/-- Pure counterpart of `drop_vertically`. -/
def dropVertPure (board : Board) (i j len : Nat) : Board :=
  clearList board ((List.range' 1 (len - 1)).map (fun k => (i + k, j)))

/-- Pure counterpart of `drop_horizontally`. -/
def dropHorizPure (board : Board) (i j len : Nat) : Board :=
  clearList board ((List.range' 1 (len - 1)).map (fun k => (i, j + k)))

/-- Pure counterpart of `drop_ship` (the horizontal test runs on the board
already mutated by the vertical drop, exactly as in the source). -/
def dropShipPure (board : Board) (i j len : Nat) : Bool × Board :=
  let v := vertExtPure board i j len
  let b1 := if v then dropVertPure board i j len else board
  let h := horizExtPure b1 i j len
  let b2 := if h then dropHorizPure b1 i j len else b1
  (v || h, b2)

/-- Pure counterpart of the loop body of `BattleShipsQuantityValidator.validate`. -/
def stepPure (st : Board × ShipCounts) (p : Nat × Nat) : Board × ShipCounts :=
  if cell st.1 p.1 p.2 = 0 then st
  else
    let r4 := dropShipPure st.1 p.1 p.2 4
    if r4.1 then (r4.2, decAt st.2 4)
    else
      let r3 := dropShipPure r4.2 p.1 p.2 3
      if r3.1 then (r3.2, decAt st.2 3)
      else
        let r2 := dropShipPure r3.2 p.1 p.2 2
        if r2.1 then (r2.2, decAt st.2 2)
        else (r2.2, decAt st.2 1)

/-- Pure counterpart of `BattleShipsQuantityValidator.validate`. -/
def quantityPure (board : Board) : Bool :=
  decide (((allCells board).foldl stepPure (board, initCounts)).2 = zeroCounts)

/-! ## Basic correspondence between the embedded code and the pure model -/

theorem shape10_iff {board : Board} :
    shape10 board = true ↔
      board.length = board_length ∧ ∀ row ∈ board, row.length = board_length := by
  simp [shape10, List.all_eq_true]

theorem board_validate_eq (board : Board) :
    board_validate board =
      (if shape10 board then Except.ok true else Except.error PyErr.valueError) := by
  by_cases h : shape10 board = true
  · rcases shape10_iff.mp h with ⟨hlen, hrow⟩
    rw [h]
    have hany : (board.any fun column => decide ¬column.length = board_length) = false := by
      rw [← Bool.not_eq_true, List.any_eq_true]
      rintro ⟨row, hrmem, hrow'⟩
      exact absurd (hrow row hrmem) (by simpa using hrow')
    simp only [board_validate, hlen, hany, ne_eq, not_true_eq_false, if_false,
      Bool.false_eq_true]
    simp [board_validate, hlen, hany, hrow]
  · rw [Bool.not_eq_true] at h
    rw [h]
    simp only [Bool.false_eq_true, if_false]
    rw [shape10] at h
    rcases Bool.and_eq_false_iff.mp h with h1 | h2
    · simp only [board_validate]
      rw [if_pos (by simpa using h1)]
    · rcases List.all_eq_false.mp h2 with ⟨row, hrmem, hrow⟩
      simp only [board_validate]
      by_cases hlen : board.length = board_length
      · rw [if_neg (by simpa using hlen)]
        rw [if_pos (List.any_eq_true.mpr ⟨row, hrmem, by simpa using hrow⟩)]
      · rw [if_pos (by simpa using hlen)]

theorem mem_allCells {board : Board} {p : Nat × Nat} :
    p ∈ allCells board ↔ p.1 < board.length ∧ p.2 < (board.getD p.1 []).length := by
  obtain ⟨i, j⟩ := p
  simp only [allCells, List.mem_flatMap, List.mem_map, List.mem_range]
  constructor
  · rintro ⟨a, ha, b, hb, hab⟩
    obtain ⟨rfl, rfl⟩ : a = i ∧ b = j := by
      constructor <;> [exact (Prod.mk.injEq ..).mp hab |>.1; exact (Prod.mk.injEq ..).mp hab |>.2]
    exact ⟨ha, hb⟩
  · rintro ⟨hi, hj⟩
    exact ⟨i, hi, j, hj, rfl⟩

theorem inspect_cell_ok {board : Board} {i j : Nat} (hi : i < board.length)
    (hj : j < (board.getD i []).length) :
    inspect_cell board i j = .ok (cell board i j) := by
  have hgd : board.getD i [] = board[i] := by
    rw [List.getD_eq_getElem?_getD, List.getElem?_eq_getElem hi, Option.getD_some]
  rw [hgd] at hj
  simp only [inspect_cell, List.getElem?_eq_getElem hi, cell, hgd,
    List.getElem?_eq_getElem hj, List.getD_eq_getElem?_getD, List.getElem?_eq_getElem hj,
    Option.getD_some]

theorem get_neighbor_eq {board : Board} (h10 : shape10 board = true) (i j : Int) :
    get_neighbor_cell_status board i j = .ok (gnPure board i j) := by
  rcases shape10_iff.mp h10 with ⟨hlen, hrow⟩
  unfold get_neighbor_cell_status gnPure
  by_cases hg : 0 ≤ i ∧ i < (board_length : Int) ∧ 0 ≤ j ∧ j < (board_length : Int)
  · rw [if_pos hg, if_pos hg]
    obtain ⟨hi0, hi, hj0, hj⟩ := hg
    have hi' : i.toNat < board.length := by rw [hlen]; omega
    have hrl : (board.getD i.toNat []).length = board_length := by
      apply hrow
      have := List.getD_eq_getElem?_getD board i.toNat []
      rw [List.getElem?_eq_getElem hi', Option.getD_some] at this
      rw [this]
      exact List.getElem_mem hi'
    have hj' : j.toNat < (board.getD i.toNat []).length := by rw [hrl]; omega
    exact inspect_cell_ok hi' hj'
  · rw [if_neg hg, if_neg hg]

end Battleship

namespace Battleship

theorem list_all_map {α β : Type} (f : α → β) (l : List α) (p : β → Bool) :
    (l.map f).all p = l.all (fun a => p (f a)) := by
  induction l with
  | nil => rfl
  | cons a l ih => simp [List.all_cons, ih]

theorem check1_eq {board : Board} (h10 : shape10 board = true) (i j : Nat) :
    check_if_neighbor_cells_set_up_correct board i j =
      (if check1Pure board i j then Except.ok true else Except.error PyErr.valueError) := by
  simp only [check_if_neighbor_cells_set_up_correct, check1Pure, get_neighbor_eq h10]

theorem check2_eq {board : Board} (h10 : shape10 board = true) (i j : Nat) :
    check_if_cross_cells_set_up_correct board i j =
      (if check2Pure board i j then Except.ok true else Except.error PyErr.valueError) := by
  simp only [check_if_cross_cells_set_up_correct, check2Pure, get_neighbor_eq h10]

theorem ships_aux_eq {board : Board} (h10 : shape10 board = true) :
    ∀ (cells : List (Nat × Nat)),
      (∀ p ∈ cells, p.1 < board.length ∧ p.2 < (board.getD p.1 []).length) →
      ships_validate_aux board cells =
        (if cells.all (fun p => decide (cell board p.1 p.2 = 0)
            || (check1Pure board p.1 p.2 && check2Pure board p.1 p.2)) then
          Except.ok true else Except.error PyErr.valueError) := by
  intro cells
  induction cells with
  | nil => intro _; rfl
  | cons p rest ih =>
    intro hb
    obtain ⟨i, j⟩ := p
    have hbp := hb (i, j) (List.mem_cons_self _ _)
    have hins := inspect_cell_ok hbp.1 hbp.2
    have hbrest : ∀ q ∈ rest, q.1 < board.length ∧ q.2 < (board.getD q.1 []).length :=
      fun q hq => hb q (List.mem_cons_of_mem _ hq)
    simp only [ships_validate_aux, hins, List.all_cons]
    by_cases hc : cell board i j = 0
    · simp only [hc, if_true, Bool.true_or, Bool.true_and, ite_eq_ite, decide_eq_true_eq]
      exact ih hbrest
    · rw [if_neg hc, check1_eq h10, check2_eq h10]
      simp only [hc, decide_eq_true_eq, if_false, Bool.false_or]
      by_cases h1 : check1Pure board i j = true
      · rw [h1]
        simp only [if_true, Bool.true_and]
        by_cases h2 : check2Pure board i j = true
        · rw [h2]
          simp only [if_true, Bool.true_and]
          exact ih hbrest
        · rw [Bool.not_eq_true] at h2
          rw [h2]
          simp
      · rw [Bool.not_eq_true] at h1
        rw [h1]
        simp

theorem ships_validate_eq {board : Board} (h10 : shape10 board = true) :
    ships_validate board =
      (if shipsPure board then Except.ok true else Except.error PyErr.valueError) := by
  rw [ships_validate, shipsPure,
    ships_aux_eq h10 (allCells board) (fun p hp => mem_allCells.mp hp)]

end Battleship

namespace Battleship

theorem gnPure_ne_zero_bounds {board : Board} {i j : Int} (h : gnPure board i j ≠ 0) :
    0 ≤ i ∧ i < (board_length : Int) ∧ 0 ≤ j ∧ j < (board_length : Int) := by
  by_contra hg
  rw [gnPure, if_neg hg] at h
  exact h rfl

theorem gnPure_in_bounds {board : Board} {i j : Int}
    (hg : 0 ≤ i ∧ i < (board_length : Int) ∧ 0 ≤ j ∧ j < (board_length : Int)) :
    gnPure board i j = cell board i.toNat j.toNat := by
  rw [gnPure, if_pos hg]

theorem length_clearCell (board : Board) (i j : Nat) :
    (clearCell board i j).length = board.length := by
  simp [clearCell]

theorem getD_clearCell_length (board : Board) (i j a : Nat) :
    ((clearCell board i j).getD a []).length = (board.getD a []).length := by
  unfold clearCell
  simp only [List.getD_eq_getElem?_getD]
  rw [List.getElem?_set]
  by_cases hia : i = a
  · subst hia
    by_cases hl : i < board.length
    · rw [if_pos rfl, if_pos hl, Option.getD_some, List.length_set,
        List.getElem?_eq_getElem hl, Option.getD_some]
    · rw [if_pos rfl, if_neg hl, List.getElem?_eq_none (by omega)]
  · rw [if_neg hia]

theorem shape10_iff_getD {board : Board} :
    shape10 board = true ↔
      board.length = board_length ∧
        ∀ a, a < board_length → (board.getD a []).length = board_length := by
  rw [shape10_iff]
  constructor
  · rintro ⟨hl, hr⟩
    refine ⟨hl, fun a ha => ?_⟩
    have ha' : a < board.length := by omega
    have hgd : board.getD a [] = board[a] := by
      rw [List.getD_eq_getElem?_getD, List.getElem?_eq_getElem ha', Option.getD_some]
    rw [hgd]
    exact hr _ (List.getElem_mem ha')
  · rintro ⟨hl, hr⟩
    refine ⟨hl, fun row hrow => ?_⟩
    obtain ⟨n, hn, rfl⟩ := List.getElem_of_mem hrow
    have hgd : board.getD n [] = board[n] := by
      rw [List.getD_eq_getElem?_getD, List.getElem?_eq_getElem hn, Option.getD_some]
    rw [← hgd]
    exact hr n (by omega)

theorem shape10_clearCell (board : Board) (i j : Nat) :
    shape10 (clearCell board i j) = shape10 board := by
  rw [Bool.eq_iff_iff, shape10_iff_getD, shape10_iff_getD]
  simp only [length_clearCell, getD_clearCell_length]

theorem shape10_clearList (ps : List (Nat × Nat)) :
    ∀ (board : Board), shape10 (clearList board ps) = shape10 board := by
  induction ps with
  | nil => intro board; rfl
  | cons p rest ih =>
    intro board
    obtain ⟨i, j⟩ := p
    rw [clearList, ih, shape10_clearCell]

theorem inb_of_shape10 {board : Board} (h10 : shape10 board = true) {i j : Nat}
    (hi : i < board_length) (hj : j < board_length) :
    i < board.length ∧ j < (board.getD i []).length := by
  rcases shape10_iff_getD.mp h10 with ⟨hl, hr⟩
  exact ⟨by omega, by rw [hr i hi]; omega⟩

theorem setCell0_ok {board : Board} {i j : Nat} (hi : i < board.length)
    (hj : j < (board.getD i []).length) :
    setCell0 board i j = .ok (clearCell board i j) := by
  have hgd : board.getD i [] = board[i] := by
    rw [List.getD_eq_getElem?_getD, List.getElem?_eq_getElem hi, Option.getD_some]
  rw [hgd] at hj
  simp only [setCell0, List.getElem?_eq_getElem hi, clearCell, hgd, if_pos hj]

theorem drop_cells_eq :
    ∀ (ps : List (Nat × Nat)) (board : Board), shape10 board = true →
      (∀ p ∈ ps, p.1 < board_length ∧ p.2 < board_length) →
      drop_cells board ps = .ok (clearList board ps) := by
  intro ps
  induction ps with
  | nil => intro board _ _; rfl
  | cons p rest ih =>
    intro board h10 hb
    obtain ⟨i, j⟩ := p
    have hbp := hb (i, j) (List.mem_cons_self _ _)
    obtain ⟨hi, hj⟩ := inb_of_shape10 h10 hbp.1 hbp.2
    rw [drop_cells, setCell0_ok hi hj, clearList]
    exact ih (clearCell board i j) (by rw [shape10_clearCell]; exact h10)
      (fun q hq => hb q (List.mem_cons_of_mem _ hq))

theorem cells_status_eq {board : Board} (h10 : shape10 board = true) :
    ∀ (ps : List (Int × Int)),
      cells_status board ps = .ok (ps.map (fun p => gnPure board p.1 p.2)) := by
  intro ps
  induction ps with
  | nil => rfl
  | cons p rest ih =>
    obtain ⟨i, j⟩ := p
    rw [cells_status, get_neighbor_eq h10, ih]
    rfl

theorem validate_ship_vertically_eq {board : Board} (h10 : shape10 board = true)
    (i j len : Nat) :
    validate_ship_vertically board i j len = .ok (vertExtPure board i j len) := by
  simp only [validate_ship_vertically, cells_status_eq h10, List.map_map, vertExtPure,
    list_all_map]
  rfl

theorem validate_ship_horizontally_eq {board : Board} (h10 : shape10 board = true)
    (i j len : Nat) :
    validate_ship_horizontally board i j len = .ok (horizExtPure board i j len) := by
  simp only [validate_ship_horizontally, cells_status_eq h10, List.map_map, horizExtPure,
    list_all_map]
  rfl

theorem drop_vertically_eq {board : Board} (h10 : shape10 board = true) {i j len : Nat}
    (hv : vertExtPure board i j len = true) :
    drop_vertically board i j len = .ok (dropVertPure board i j len) := by
  rw [drop_vertically, dropVertPure]
  apply drop_cells_eq _ _ h10
  intro p hp
  obtain ⟨k, hk, rfl⟩ := List.mem_map.mp hp
  have hall := List.all_eq_true.mp hv k hk
  have hne : gnPure board (((i + k : Nat)) : Int) (j : Int) ≠ 0 := by simpa using hall
  have hb := gnPure_ne_zero_bounds hne
  exact ⟨by omega, by omega⟩

theorem drop_horizontally_eq {board : Board} (h10 : shape10 board = true) {i j len : Nat}
    (hh : horizExtPure board i j len = true) :
    drop_horizontally board i j len = .ok (dropHorizPure board i j len) := by
  rw [drop_horizontally, dropHorizPure]
  apply drop_cells_eq _ _ h10
  intro p hp
  obtain ⟨k, hk, rfl⟩ := List.mem_map.mp hp
  have hall := List.all_eq_true.mp hh k hk
  have hne : gnPure board (i : Int) (((j + k : Nat)) : Int) ≠ 0 := by simpa using hall
  have hb := gnPure_ne_zero_bounds hne
  exact ⟨by omega, by omega⟩

end Battleship

namespace Battleship

theorem drop_ship_eq {board : Board} (h10 : shape10 board = true) (i j len : Nat) :
    drop_ship board i j len = .ok (dropShipPure board i j len) ∧
      shape10 (dropShipPure board i j len).2 = true := by
  cases hv : vertExtPure board i j len with
  | false =>
    have hb1 : (if vertExtPure board i j len then dropVertPure board i j len else board)
        = board := by rw [hv]; rfl
    cases hh : horizExtPure board i j len with
    | false =>
      constructor
      · simp only [drop_ship, validate_ship_vertically_eq h10, hv,
          Bool.false_eq_true, if_false, validate_ship_horizontally_eq h10, hh,
          dropShipPure, hb1]
      · simp only [dropShipPure, hv, Bool.false_eq_true, if_false, hh, hb1]
        exact h10
    | true =>
      constructor
      · simp only [drop_ship, validate_ship_vertically_eq h10, hv,
          Bool.false_eq_true, if_false, validate_ship_horizontally_eq h10, hh, if_true,
          drop_horizontally_eq h10 hh, dropShipPure, hb1]
      · simp only [dropShipPure, hv, Bool.false_eq_true, if_false, hh, if_true, hb1,
          dropHorizPure, shape10_clearList]
        exact h10
  | true =>
    have h10v : shape10 (dropVertPure board i j len) = true := by
      rw [dropVertPure, shape10_clearList]; exact h10
    have hb1 : (if vertExtPure board i j len then dropVertPure board i j len else board)
        = dropVertPure board i j len := by rw [hv]; rfl
    cases hh : horizExtPure (dropVertPure board i j len) i j len with
    | false =>
      constructor
      · simp only [drop_ship, validate_ship_vertically_eq h10, hv, if_true,
          drop_vertically_eq h10 hv, validate_ship_horizontally_eq h10v, hh,
          Bool.false_eq_true, if_false, dropShipPure, hb1]
      · simp only [dropShipPure, hv, if_true, hb1, hh, Bool.false_eq_true, if_false]
        exact h10v
    | true =>
      constructor
      · simp only [drop_ship, validate_ship_vertically_eq h10, hv, if_true,
          drop_vertically_eq h10 hv, validate_ship_horizontally_eq h10v, hh,
          drop_horizontally_eq h10v hh, dropShipPure, hb1]
      · simp only [dropShipPure, hv, if_true, hb1, hh, dropHorizPure, shape10_clearList]
        exact h10v

end Battleship


namespace Battleship

theorem step_code_eq {board : Board} (cnt : ShipCounts) {i j : Nat}
    (h10 : shape10 board = true) (hi : i < board.length)
    (hj : j < (board.getD i []).length) :
    quantity_step_code board cnt i j = .ok (stepPure (board, cnt) (i, j)) ∧
      shape10 (stepPure (board, cnt) (i, j)).1 = true := by
  have hins := inspect_cell_ok hi hj
  by_cases hc : cell board i j = 0
  · have hstep : stepPure (board, cnt) (i, j) = (board, cnt) := by
      simp only [stepPure, hc, if_true]
    rw [hstep]
    constructor
    · simp only [quantity_step_code, hins, hc, if_true]
    · exact h10
  · obtain ⟨hd4, hs4⟩ := drop_ship_eq h10 i j 4
    rcases e4 : dropShipPure board i j 4 with ⟨m4, b4⟩
    rw [e4] at hd4 hs4
    cases m4 with
    | true =>
      have hstep : stepPure (board, cnt) (i, j) = (b4, decAt cnt 4) := by
        simp only [stepPure, hc, if_false, e4, if_true]
      rw [hstep]
      constructor
      · simp only [quantity_step_code, hins, hc, if_false, hd4, if_true]
      · exact hs4
    | false =>
      obtain ⟨hd3, hs3⟩ := drop_ship_eq hs4 i j 3
      rcases e3 : dropShipPure b4 i j 3 with ⟨m3, b3⟩
      rw [e3] at hd3 hs3
      cases m3 with
      | true =>
        have hstep : stepPure (board, cnt) (i, j) = (b3, decAt cnt 3) := by
          simp only [stepPure, hc, if_false, e4, Bool.false_eq_true, e3, if_true]
        rw [hstep]
        constructor
        · simp only [quantity_step_code, hins, hc, if_false, hd4,
            Bool.false_eq_true, hd3, if_true]
        · exact hs3
      | false =>
        obtain ⟨hd2, hs2⟩ := drop_ship_eq hs3 i j 2
        rcases e2 : dropShipPure b3 i j 2 with ⟨m2, b2⟩
        rw [e2] at hd2 hs2
        cases m2 with
        | true =>
          have hstep : stepPure (board, cnt) (i, j) = (b2, decAt cnt 2) := by
            simp only [stepPure, hc, if_false, e4, Bool.false_eq_true, e3, e2, if_true]
          rw [hstep]
          constructor
          · simp only [quantity_step_code, hins, hc, if_false, hd4,
              Bool.false_eq_true, hd3, hd2, if_true]
          · exact hs2
        | false =>
          have hstep : stepPure (board, cnt) (i, j) = (b2, decAt cnt 1) := by
            simp only [stepPure, hc, if_false, e4, Bool.false_eq_true, e3, e2]
          rw [hstep]
          constructor
          · simp only [quantity_step_code, hins, hc, if_false, hd4,
              Bool.false_eq_true, hd3, hd2]
          · exact hs2

theorem quantity_aux_eq :
    ∀ (cells : List (Nat × Nat)) (board : Board) (cnt : ShipCounts),
      shape10 board = true →
      (∀ p ∈ cells, p.1 < board_length ∧ p.2 < board_length) →
      quantity_validate_aux board cnt cells = .ok (cells.foldl stepPure (board, cnt)) ∧
        shape10 (cells.foldl stepPure (board, cnt)).1 = true := by
  intro cells
  induction cells with
  | nil => intro board cnt h10 _; exact ⟨rfl, h10⟩
  | cons p rest ih =>
    intro board cnt h10 hb
    obtain ⟨i, j⟩ := p
    have hbp := hb (i, j) (List.mem_cons_self _ _)
    obtain ⟨hi, hj⟩ := inb_of_shape10 h10 hbp.1 hbp.2
    obtain ⟨hstep, hsh⟩ := step_code_eq cnt h10 hi hj
    have hrest : ∀ q ∈ rest, q.1 < board_length ∧ q.2 < board_length :=
      fun q hq => hb q (List.mem_cons_of_mem _ hq)
    have hih := ih (stepPure (board, cnt) (i, j)).1 (stepPure (board, cnt) (i, j)).2
      hsh hrest
    rw [List.foldl_cons]
    rw [quantity_validate_aux, hstep]
    rw [← Prod.mk.eta (p := stepPure (board, cnt) (i, j))] at hih ⊢
    exact hih

theorem quantityPure_def (board : Board) :
    quantityPure board =
      decide (((allCells board).foldl stepPure (board, initCounts)).2 = zeroCounts) := rfl

theorem quantity_validate_eq {board : Board} (h10 : shape10 board = true) :
    quantity_validate board =
      (if quantityPure board then Except.ok true else Except.error PyErr.valueError) := by
  have hcells : ∀ p ∈ allCells board, p.1 < board_length ∧ p.2 < board_length := by
    intro p hp
    obtain ⟨h1, h2⟩ := mem_allCells.mp hp
    rcases shape10_iff_getD.mp h10 with ⟨hl, hr⟩
    refine ⟨by omega, ?_⟩
    rw [hr p.1 (by omega)] at h2
    exact h2
  obtain ⟨haux, _⟩ := quantity_aux_eq (allCells board) board initCounts h10 hcells
  rcases ef : (allCells board).foldl stepPure (board, initCounts) with ⟨bf, cf⟩
  rw [ef] at haux
  simp only [quantity_validate, quantity_validate_result, haux, quantityPure_def, ef]
  by_cases hz : cf = zeroCounts
  · simp [hz]
  · simp [hz]

theorem validate_battlefield_eq (board : Board) :
    validate_battlefield board =
      .ok (shape10 board && shipsPure board && quantityPure board) := by
  rw [validate_battlefield, board_validate_eq]
  cases h10 : shape10 board with
  | false => rfl
  | true =>
    simp only [if_true]
    rw [ships_validate_eq h10]
    cases hs : shipsPure board with
    | false => rfl
    | true =>
      simp only [if_true]
      rw [quantity_validate_eq h10]
      cases hq : quantityPure board with
      | false => rfl
      | true => rfl

end Battleship

namespace Battleship

/-! ## The specification's validity predicate (claim C1)

The following definitions follow the specification's words, not the code:
a 10x10 grid is spec-valid when every occupied region is a straight
horizontal or vertical line, regions have no diagonal or orthogonal contact
with one another, and the multiset of region lengths is exactly one 4, two
3, three 2 and four 1.  Regions are identified through their top-left
origin cell and measured as maximal straight runs. -/

/-- Row-major list of the coordinates of a 10x10 board. -/
def rowMajor : List (Nat × Nat) :=
  (List.range 10).flatMap (fun i => (List.range 10).map (fun j => (i, j)))

/-- Occupancy with the implicit empty border of the spec's data model. -/
def occSpec (board : Board) (i j : Int) : Bool := gnPure board i j ≠ 0

/-- Spec predicate: the grid has the required 10x10 dimensions. -/
def specDims10 (board : Board) : Bool :=
  board.length == 10 && board.all (fun row => row.length == 10)

/-- Spec predicate: no occupied cell has an occupied diagonal neighbor
(no diagonal contact between regions). -/
def specNoDiag (board : Board) : Bool :=
  rowMajor.all (fun p =>
    !occSpec board p.1 p.2 ||
      (!occSpec board ((p.1 : Int) - 1) ((p.2 : Int) - 1) &&
       !occSpec board ((p.1 : Int) - 1) ((p.2 : Int) + 1) &&
       !occSpec board ((p.1 : Int) + 1) ((p.2 : Int) - 1) &&
       !occSpec board ((p.1 : Int) + 1) ((p.2 : Int) + 1)))

/-- Spec predicate: no occupied cell has both a horizontal and a vertical
occupied neighbor; together with `specNoDiag` this makes every occupied
region a straight horizontal or vertical line. -/
def specNoBend (board : Board) : Bool :=
  rowMajor.all (fun p =>
    !occSpec board p.1 p.2 ||
      !((occSpec board ((p.1 : Int) - 1) p.2 || occSpec board ((p.1 : Int) + 1) p.2) &&
        (occSpec board p.1 ((p.2 : Int) - 1) || occSpec board p.1 ((p.2 : Int) + 1))))

/-- An occupied cell with no occupied neighbor above or to its left:
the top-left origin of its region. -/
def specIsOrigin (board : Board) (i j : Nat) : Bool :=
  occSpec board i j && !occSpec board ((i : Int) - 1) j && !occSpec board i ((j : Int) - 1)

/-- Length of the maximal straight run starting at an origin: horizontal if
the cell to the right is occupied, else vertical (single cells get 1). -/
def specRunLen (board : Board) (i j : Nat) : Nat :=
  if occSpec board i ((j : Int) + 1) then
    ((List.range 10).takeWhile (fun k => occSpec board i ((j + k : Nat) : Int))).length
  else
    ((List.range 10).takeWhile (fun k => occSpec board ((i + k : Nat) : Int) j)).length

/-- The multiset (as a list in scan order) of region lengths. -/
def specShipLens (board : Board) : List Nat :=
  (rowMajor.filter (fun p => specIsOrigin board p.1 p.2)).map
    (fun p => specRunLen board p.1 p.2)

/-- The specification's overall validity predicate for claim C1: required
dimensions, straight separated regions, and fleet multiset one 4-cell,
two 3-cell, three 2-cell, four 1-cell ships. -/
def specValidC1 (board : Board) : Bool :=
  specDims10 board && specNoDiag board && specNoBend board &&
    (specShipLens board).length == 10 &&
    (specShipLens board).count 1 == 4 && (specShipLens board).count 2 == 3 &&
    (specShipLens board).count 3 == 2 && (specShipLens board).count 4 == 1

/-- A board the fleet counter miscounts: the 5-cell run in row 0 is counted
as one 4-cell ship plus one 1-cell ship, so together with two 3-runs, three
2-runs and three single cells every tally reaches zero. -/
def cheatBoard : Board := [
  [1, 1, 1, 1, 1, 0, 0, 0, 0, 0],
  [0, 0, 0, 0, 0, 0, 0, 0, 0, 0],
  [1, 1, 1, 0, 1, 1, 1, 0, 0, 0],
  [0, 0, 0, 0, 0, 0, 0, 0, 0, 0],
  [1, 1, 0, 1, 1, 0, 1, 1, 0, 0],
  [0, 0, 0, 0, 0, 0, 0, 0, 0, 0],
  [1, 0, 1, 0, 1, 0, 0, 0, 0, 0],
  [0, 0, 0, 0, 0, 0, 0, 0, 0, 0],
  [0, 0, 0, 0, 0, 0, 0, 0, 0, 0],
  [0, 0, 0, 0, 0, 0, 0, 0, 0, 0]]

end Battleship

namespace Battleship

/-- A cell that reads non-zero is stored in range. -/
theorem cell_ne_zero_lt {board : Board} {i j : Nat} (hocc : cell board i j ≠ 0) :
    i < board.length ∧ j < (board.getD i []).length := by
  by_cases hi : i < board.length
  · refine ⟨hi, ?_⟩
    by_contra hj
    rw [cell, List.getD_eq_default _ _ (by omega)] at hocc
    exact hocc rfl
  · exfalso
    have hrow : board.getD i [] = [] := List.getD_eq_default _ _ (by omega)
    rw [cell, hrow] at hocc
    exact hocc rfl

/-- `ValueError` in one occupied cell's checks makes the whole contact scan
fail, hence the orchestrator answer `false` (given the shape is right). -/
theorem shipsPure_false_of_cell {board : Board} {i j : Nat}
    (_h10 : shape10 board = true) (hocc : cell board i j ≠ 0)
    (hfail : check1Pure board i j = false ∨ check2Pure board i j = false) :
    validate_battlefield board = .ok false := by
  have hsp : shipsPure board = false := by
    rw [shipsPure]
    apply List.all_eq_false.mpr
    refine ⟨(i, j), mem_allCells.mpr (cell_ne_zero_lt hocc), ?_⟩
    rcases hfail with h | h <;> simp [hocc, h]
  rw [validate_battlefield_eq, hsp]
  simp

/-- C4: any occupied diagonal neighbor of an occupied cell fails the
contact checker and forces `validate_battlefield` to return `false`. -/
theorem claim4_diagonal_contact (board : Board) (h10 : shape10 board = true)
    (i j : Nat) (hocc : cell board i j ≠ 0)
    (hdiag : gnPure board ((i : Int) - 1) ((j : Int) + 1) ≠ 0 ∨
      gnPure board ((i : Int) - 1) ((j : Int) - 1) ≠ 0 ∨
      gnPure board ((i : Int) + 1) ((j : Int) + 1) ≠ 0 ∨
      gnPure board ((i : Int) + 1) ((j : Int) - 1) ≠ 0) :
    validate_battlefield board = .ok false := by
  apply shipsPure_false_of_cell h10 hocc
  right
  rw [check2Pure, cross_ok, if_neg]
  intro hno
  exact hno (by tauto)

/-- Two diagonally adjacent occupied cells at (0,0) and (1,1), all other
cells empty: the spec's diagonal-contact scenario. -/
def diagBoard : Board := [
  [1, 0, 0, 0, 0, 0, 0, 0, 0, 0],
  [0, 1, 0, 0, 0, 0, 0, 0, 0, 0],
  [0, 0, 0, 0, 0, 0, 0, 0, 0, 0],
  [0, 0, 0, 0, 0, 0, 0, 0, 0, 0],
  [0, 0, 0, 0, 0, 0, 0, 0, 0, 0],
  [0, 0, 0, 0, 0, 0, 0, 0, 0, 0],
  [0, 0, 0, 0, 0, 0, 0, 0, 0, 0],
  [0, 0, 0, 0, 0, 0, 0, 0, 0, 0],
  [0, 0, 0, 0, 0, 0, 0, 0, 0, 0],
  [0, 0, 0, 0, 0, 0, 0, 0, 0, 0]]

theorem claim4_witness :
    shape10 diagBoard = true ∧ cell diagBoard 0 0 ≠ 0 ∧
      gnPure diagBoard ((0 : Int) + 1) ((0 : Int) + 1) ≠ 0 ∧
      validate_battlefield diagBoard = .ok false :=
  ⟨by decide, by decide, by decide,
    claim4_diagonal_contact diagBoard (by decide) 0 0 (by decide)
      (Or.inr (Or.inr (Or.inl (by decide))))⟩

/-- C5: a grid with a wrong row count or any wrong row length is rejected. -/
theorem claim5_shape (board : Board)
    (h : board.length ≠ 10 ∨ ∃ row ∈ board, row.length ≠ 10) :
    validate_battlefield board = .ok false := by
  have hs : shape10 board = false := by
    rw [← Bool.not_eq_true, shape10_iff]
    rintro ⟨h1, h2⟩
    rcases h with h | ⟨row, hm, hr⟩
    · exact h h1
    · exact hr (h2 row hm)
  rw [validate_battlefield_eq, hs]
  rfl

theorem claim5_witness :
    (([[1, 1]] : Board).length ≠ 10 ∨ ∃ row ∈ ([[1, 1]] : Board), row.length ≠ 10) ∧
      validate_battlefield [[1, 1]] = .ok false :=
  ⟨Or.inl (by decide), claim5_shape [[1, 1]] (Or.inl (by decide))⟩

/-- A 10x10 board whose only occupied cells are a single horizontal run of
five cells in row 0. -/
def fiveRunBoard : Board := [
  [1, 1, 1, 1, 1, 0, 0, 0, 0, 0],
  [0, 0, 0, 0, 0, 0, 0, 0, 0, 0],
  [0, 0, 0, 0, 0, 0, 0, 0, 0, 0],
  [0, 0, 0, 0, 0, 0, 0, 0, 0, 0],
  [0, 0, 0, 0, 0, 0, 0, 0, 0, 0],
  [0, 0, 0, 0, 0, 0, 0, 0, 0, 0],
  [0, 0, 0, 0, 0, 0, 0, 0, 0, 0],
  [0, 0, 0, 0, 0, 0, 0, 0, 0, 0],
  [0, 0, 0, 0, 0, 0, 0, 0, 0, 0],
  [0, 0, 0, 0, 0, 0, 0, 0, 0, 0]]

/-- C9: the contact checker accepts an isolated straight run of five cells;
it imposes no upper bound on ship length. -/
theorem claim9_no_length_cap :
    ships_validate fiveRunBoard = .ok true ∧
      (∀ i < 10, ∀ j < 10, (cell fiveRunBoard i j ≠ 0 ↔ i = 0 ∧ j < 5)) := by
  constructor
  · rfl
  · decide

/-- C1 (code bug): `validate_battlefield` answers `true` on `cheatBoard`
although the specification's validity predicate rejects it (its regions are
one 5-run, two 3-runs, three 2-runs and three single cells). -/
theorem claim1_counterexample :
    validate_battlefield cheatBoard = .ok true ∧ specValidC1 cheatBoard = false := by
  constructor
  · rfl
  · rfl

/-- C10: on every list-of-lists-of-0/1 input the call returns a boolean:
no uncaught exception (in the model, never `.error`). -/
theorem claim10_total (board : Board)
    (_h01 : ∀ row ∈ board, ∀ c ∈ row, c = 0 ∨ c = 1) :
    ∃ r : Bool, validate_battlefield board = .ok r :=
  ⟨_, validate_battlefield_eq board⟩

theorem claim10_witness :
    (∀ row ∈ ([[1], [0, 1]] : Board), ∀ c ∈ row, c = 0 ∨ c = 1) ∧
      ∃ r : Bool, validate_battlefield [[1], [0, 1]] = .ok r :=
  ⟨by decide, claim10_total [[1], [0, 1]] (by decide)⟩

end Battleship

namespace Battleship

/-- Status of the orthogonal neighbor one row up (the source calls the
`(i-1, j)` neighbor `left`). -/
def nbrUp (board : Board) (i j : Nat) : Nat := gnPure board ((i : Int) - 1) (j : Int)

/-- Status of the orthogonal neighbor one row down (`right` in the source). -/
def nbrDown (board : Board) (i j : Nat) : Nat := gnPure board ((i : Int) + 1) (j : Int)

/-- Status of the orthogonal neighbor one column left (`upper` in the source). -/
def nbrLeft (board : Board) (i j : Nat) : Nat := gnPure board (i : Int) ((j : Int) - 1)

/-- Status of the orthogonal neighbor one column right (`lower` in the source). -/
def nbrRight (board : Board) (i j : Nat) : Nat := gnPure board (i : Int) ((j : Int) + 1)

/-- All stored cell values are 0 or 1. -/
def zeroOne (board : Board) : Prop := ∀ row ∈ board, ∀ c ∈ row, c = 0 ∨ c = 1

instance (board : Board) : Decidable (zeroOne board) := by
  unfold zeroOne
  infer_instance

theorem cell_zeroOne {board : Board} (h01 : zeroOne board) (i j : Nat) :
    cell board i j = 0 ∨ cell board i j = 1 := by
  by_cases hi : i < board.length
  · by_cases hj : j < (board.getD i []).length
    · have hgd : board.getD i [] = board[i] := by
        rw [List.getD_eq_getElem?_getD, List.getElem?_eq_getElem hi, Option.getD_some]
      rw [hgd] at hj
      have hc : cell board i j = board[i][j] := by
        rw [cell, hgd, List.getD_eq_getElem?_getD, List.getElem?_eq_getElem hj,
          Option.getD_some]
      rw [hc]
      exact h01 _ (List.getElem_mem hi) _ (List.getElem_mem hj)
    · left
      rw [cell, List.getD_eq_default _ _ (by omega)]
  · left
    have hrow : board.getD i [] = [] := List.getD_eq_default _ _ (by omega)
    rw [cell, hrow]
    rfl

theorem gnPure_zeroOne {board : Board} (h01 : zeroOne board) (i j : Int) :
    gnPure board i j = 0 ∨ gnPure board i j = 1 := by
  rw [gnPure]
  split
  · exact cell_zeroOne h01 _ _
  · exact Or.inl rfl

theorem straight_ok_char {l r u d : Nat} (hl : l = 0 ∨ l = 1) (hr : r = 0 ∨ r = 1)
    (hu : u = 0 ∨ u = 1) (hd : d = 0 ∨ d = 1) :
    (straight_ok l r u d = true ↔
      (l + r + u + d ≤ 1 ∨ (l = 1 ∧ r = 1 ∧ u = 0 ∧ d = 0) ∨
        (u = 1 ∧ d = 1 ∧ l = 0 ∧ r = 0))) := by
  rcases hl with rfl | rfl <;> rcases hr with rfl | rfl <;>
    rcases hu with rfl | rfl <;> rcases hd with rfl | rfl <;> decide

/-- C3: on a 10x10 0/1 grid the straightness check accepts an occupied cell
exactly when it has at most one occupied orthogonal neighbor or exactly the
collinear pair along one axis (out-of-bounds reads count as empty); any
other configuration makes `validate_battlefield` answer `false`. -/
theorem claim3_contact_straight (board : Board) (h10 : shape10 board = true)
    (h01 : zeroOne board) (i j : Nat) (hocc : cell board i j ≠ 0) :
    (check_if_neighbor_cells_set_up_correct board i j = .ok true ↔
      (nbrUp board i j + nbrDown board i j + nbrLeft board i j + nbrRight board i j ≤ 1 ∨
       (nbrUp board i j = 1 ∧ nbrDown board i j = 1 ∧
         nbrLeft board i j = 0 ∧ nbrRight board i j = 0) ∨
       (nbrLeft board i j = 1 ∧ nbrRight board i j = 1 ∧
         nbrUp board i j = 0 ∧ nbrDown board i j = 0))) ∧
    (check_if_neighbor_cells_set_up_correct board i j ≠ .ok true →
      validate_battlefield board = .ok false) := by
  have hiff : check1Pure board i j = true ↔
      (nbrUp board i j + nbrDown board i j + nbrLeft board i j + nbrRight board i j ≤ 1 ∨
       (nbrUp board i j = 1 ∧ nbrDown board i j = 1 ∧
         nbrLeft board i j = 0 ∧ nbrRight board i j = 0) ∨
       (nbrLeft board i j = 1 ∧ nbrRight board i j = 1 ∧
         nbrUp board i j = 0 ∧ nbrDown board i j = 0)) := by
    simp only [check1Pure, nbrUp, nbrDown, nbrLeft, nbrRight]
    exact straight_ok_char (gnPure_zeroOne h01 _ _) (gnPure_zeroOne h01 _ _)
      (gnPure_zeroOne h01 _ _) (gnPure_zeroOne h01 _ _)
  constructor
  · rw [check1_eq h10, ← hiff]
    cases hcp : check1Pure board i j <;> simp [hcp]
  · intro hne
    have hcp : check1Pure board i j = false := by
      by_contra hcp'
      rw [Bool.not_eq_false] at hcp'
      rw [check1_eq h10, hcp'] at hne
      simp at hne
    exact shipsPure_false_of_cell h10 hocc (Or.inl hcp)

/-- The spec's bent-ship scenario: occupied cells (0,0), (0,1), (1,1). -/
def bentBoard : Board := [
  [1, 1, 0, 0, 0, 0, 0, 0, 0, 0],
  [0, 1, 0, 0, 0, 0, 0, 0, 0, 0],
  [0, 0, 0, 0, 0, 0, 0, 0, 0, 0],
  [0, 0, 0, 0, 0, 0, 0, 0, 0, 0],
  [0, 0, 0, 0, 0, 0, 0, 0, 0, 0],
  [0, 0, 0, 0, 0, 0, 0, 0, 0, 0],
  [0, 0, 0, 0, 0, 0, 0, 0, 0, 0],
  [0, 0, 0, 0, 0, 0, 0, 0, 0, 0],
  [0, 0, 0, 0, 0, 0, 0, 0, 0, 0],
  [0, 0, 0, 0, 0, 0, 0, 0, 0, 0]]

theorem claim3_witness :
    shape10 bentBoard = true ∧ zeroOne bentBoard ∧ cell bentBoard 0 1 ≠ 0 ∧
      ((check_if_neighbor_cells_set_up_correct bentBoard 0 1 = .ok true ↔
        (nbrUp bentBoard 0 1 + nbrDown bentBoard 0 1 +
            nbrLeft bentBoard 0 1 + nbrRight bentBoard 0 1 ≤ 1 ∨
         (nbrUp bentBoard 0 1 = 1 ∧ nbrDown bentBoard 0 1 = 1 ∧
           nbrLeft bentBoard 0 1 = 0 ∧ nbrRight bentBoard 0 1 = 0) ∨
         (nbrLeft bentBoard 0 1 = 1 ∧ nbrRight bentBoard 0 1 = 1 ∧
           nbrUp bentBoard 0 1 = 0 ∧ nbrDown bentBoard 0 1 = 0))) ∧
       (check_if_neighbor_cells_set_up_correct bentBoard 0 1 ≠ .ok true →
        validate_battlefield bentBoard = .ok false)) :=
  ⟨by decide, by decide, by decide,
    claim3_contact_straight bentBoard (by decide) (by decide) 0 1 (by decide)⟩

theorem board_validate_ok_iff {board : Board} :
    board_validate board = .ok true ↔ shape10 board = true := by
  rw [board_validate_eq]
  cases h : shape10 board <;> simp

theorem ships_validate_ok_iff {board : Board} (h10 : shape10 board = true) :
    ships_validate board = .ok true ↔ shipsPure board = true := by
  rw [ships_validate_eq h10]
  cases h : shipsPure board <;> simp

theorem quantity_validate_ok_iff {board : Board} (h10 : shape10 board = true) :
    quantity_validate board = .ok true ↔ quantityPure board = true := by
  rw [quantity_validate_eq h10]
  cases h : quantityPure board <;> simp

/-- C8: the orchestrator answers `true` exactly when the shape, contact and
fleet validators all succeed, and `false` exactly when some validator in the
fixed shape-contact-fleet order fails (the first failure decides). -/
theorem claim8_order (board : Board) :
    (validate_battlefield board = .ok true ↔
      (board_validate board = .ok true ∧ ships_validate board = .ok true ∧
        quantity_validate board = .ok true)) ∧
    (validate_battlefield board = .ok false ↔
      ¬(board_validate board = .ok true ∧ ships_validate board = .ok true ∧
        quantity_validate board = .ok true)) := by
  rw [validate_battlefield_eq]
  cases h10 : shape10 board with
  | false =>
    have hbv : ¬board_validate board = .ok true := by
      rw [board_validate_ok_iff, h10]
      simp
    constructor <;> simp [hbv]
  | true =>
    have hbv : board_validate board = .ok true := board_validate_ok_iff.mpr h10
    cases hs : shipsPure board with
    | false =>
      have hsv : ¬ships_validate board = .ok true := by
        rw [ships_validate_ok_iff h10, hs]
        simp
      constructor <;> simp [hbv, hsv]
    | true =>
      have hsv : ships_validate board = .ok true := (ships_validate_ok_iff h10).mpr hs
      cases hq : quantityPure board with
      | false =>
        have hqv : ¬quantity_validate board = .ok true := by
          rw [quantity_validate_ok_iff h10, hq]
          simp
        constructor <;> simp [hbv, hsv, hqv]
      | true =>
        have hqv : quantity_validate board = .ok true :=
          (quantity_validate_ok_iff h10).mpr hq
        constructor <;> simp [hbv, hsv, hqv]

end Battleship

namespace Battleship

theorem list_all_congr {α : Type} {p q : α → Bool} :
    ∀ {l : List α}, (∀ x ∈ l, p x = q x) → l.all p = l.all q := by
  intro l
  induction l with
  | nil => intro _; rfl
  | cons a l ih =>
    intro h
    rw [List.all_cons, List.all_cons, h a (List.mem_cons_self _ _),
      ih (fun x hx => h x (List.mem_cons_of_mem _ hx))]

theorem list_flatMap_congr {α β : Type} {f g : α → List β} :
    ∀ {l : List α}, (∀ x ∈ l, f x = g x) → l.flatMap f = l.flatMap g := by
  intro l
  induction l with
  | nil => intro _; rfl
  | cons a l ih =>
    intro h
    rw [List.flatMap_cons, List.flatMap_cons, h a (List.mem_cons_self _ _),
      ih (fun x hx => h x (List.mem_cons_of_mem _ hx))]

theorem getD_set_list {α : Type} :
    ∀ (l : List α) (n m : Nat) (x d : α),
      (l.set n x).getD m d = if n = m ∧ n < l.length then x else l.getD m d := by
  intro l
  induction l with
  | nil => intro n m x d; cases n <;> simp
  | cons a l ih =>
    intro n m x d
    cases n with
    | zero =>
      cases m with
      | zero => simp
      | succ m => simp
    | succ n =>
      cases m with
      | zero => simp
      | succ m =>
        simp only [List.set_cons_succ, List.getD_cons_succ, ih, List.length_cons]
        by_cases h : n = m ∧ n < l.length
        · rw [if_pos h, if_pos ⟨by omega, by omega⟩]
        · rw [if_neg h, if_neg (by omega)]

theorem cell_clearCell (board : Board) (i j a b : Nat) :
    cell (clearCell board i j) a b = if i = a ∧ j = b then 0 else cell board a b := by
  unfold cell clearCell
  rw [getD_set_list]
  by_cases h1 : i = a ∧ i < board.length
  · rw [if_pos h1, getD_set_list]
    obtain ⟨rfl, hil⟩ := h1
    by_cases h2 : j = b ∧ j < (board.getD i []).length
    · rw [if_pos h2, if_pos ⟨rfl, h2.1⟩]
    · rw [if_neg h2]
      by_cases hjb : j = b
      · subst hjb
        rw [if_pos ⟨rfl, rfl⟩]
        have hjl : (board.getD i []).length ≤ j := by
          rcases Nat.lt_or_ge j (board.getD i []).length with h | h
          · exact absurd ⟨rfl, h⟩ h2
          · exact h
        rw [List.getD_eq_default _ _ hjl]
      · rw [if_neg (fun hc => hjb hc.2)]
  · rw [if_neg h1]
    by_cases hab : i = a ∧ j = b
    · rw [if_pos hab]
      obtain ⟨rfl, rfl⟩ := hab
      have hil : board.length ≤ i := by
        rcases Nat.lt_or_ge i board.length with h | h
        · exact absurd ⟨rfl, h⟩ h1
        · exact h
      rw [List.getD_eq_default _ _ hil]
      rfl
    · rw [if_neg hab]

theorem cell_clearList :
    ∀ (ps : List (Nat × Nat)) (board : Board) (a b : Nat),
      cell (clearList board ps) a b = if (a, b) ∈ ps then 0 else cell board a b := by
  intro ps
  induction ps with
  | nil => intro board a b; simp [clearList]
  | cons p rest ih =>
    intro board a b
    obtain ⟨i, j⟩ := p
    rw [clearList, ih]
    by_cases hr : (a, b) ∈ rest
    · rw [if_pos hr, if_pos (List.mem_cons_of_mem _ hr)]
    · rw [if_neg hr, cell_clearCell]
      by_cases hij : i = a ∧ j = b
      · rw [if_pos hij, if_pos (by rw [List.mem_cons]; left; rw [hij.1, hij.2])]
      · rw [if_neg hij, if_neg ?_]
        rw [List.mem_cons]
        rintro (h | h)
        · exact hij ⟨congrArg Prod.fst h.symm, congrArg Prod.snd h.symm⟩
        · exact hr h

theorem gnPure_clearList (ps : List (Nat × Nat)) (board : Board) (a b : Int)
    (hnm : ∀ p ∈ ps, ¬((p.1 : Int) = a ∧ (p.2 : Int) = b)) :
    gnPure (clearList board ps) a b = gnPure board a b := by
  unfold gnPure
  split
  · next hg =>
    rw [cell_clearList, if_neg ?_]
    intro hmem
    exact hnm _ hmem ⟨by omega, by omega⟩
  · rfl

/-- The vertical drop never touches the cells the horizontal test reads:
the test's outcome is the same before and after the drop. -/
theorem horizExt_dropVert (board : Board) (i j len : Nat) :
    horizExtPure (dropVertPure board i j len) i j len = horizExtPure board i j len := by
  unfold horizExtPure dropVertPure
  apply list_all_congr
  intro k hk
  rw [gnPure_clearList _ _ _ _ ?_]
  intro p hp
  obtain ⟨k', hk', rfl⟩ := List.mem_map.mp hp
  rw [List.mem_range'] at hk'
  rintro ⟨h1, _⟩
  omega

/-! ## The fleet scan as worded by the specification (claim C2) -/

/-- Modelled from the spec's wording of the fleet counter's per-cell work:
try, in strict priority order, a length-4 then 3 then 2 extension in the
vertical or horizontal positive direction, both judged against the current
working board; clear the trailing cells of every matched extension. -/
def specDropShip (board : Board) (i j len : Nat) : Bool × Board :=
  let v := vertExtPure board i j len
  let h := horizExtPure board i j len
  let b1 := if v then dropVertPure board i j len else board
  let b2 := if h then dropHorizPure b1 i j len else b1
  (v || h, b2)

/-- Spec-worded step: skip cleared cells; attribute an occupied cell to the
first matching length, decrementing that tally once, else to a 1-ship. -/
def specStep (st : Board × ShipCounts) (p : Nat × Nat) : Board × ShipCounts :=
  if cell st.1 p.1 p.2 = 0 then st
  else
    let r4 := specDropShip st.1 p.1 p.2 4
    if r4.1 then (r4.2, decAt st.2 4)
    else
      let r3 := specDropShip r4.2 p.1 p.2 3
      if r3.1 then (r3.2, decAt st.2 3)
      else
        let r2 := specDropShip r3.2 p.1 p.2 2
        if r2.1 then (r2.2, decAt st.2 2)
        else (r2.2, decAt st.2 1)

/-- Spec-worded fleet validation: scan the private working copy in row-major
order, then succeed exactly when every remaining tally is zero. -/
def specFleetScan (board : Board) : Bool :=
  decide ((rowMajor.foldl specStep (board, initCounts)).2 = zeroCounts)

theorem dropShipPure_eq_spec (board : Board) (i j len : Nat) :
    dropShipPure board i j len = specDropShip board i j len := by
  unfold dropShipPure specDropShip
  cases hv : vertExtPure board i j len
  · simp only [hv, Bool.false_eq_true, if_false]
  · simp only [hv, if_true, horizExt_dropVert]

theorem stepPure_eq_spec : stepPure = specStep := by
  funext st p
  unfold stepPure specStep
  simp only [dropShipPure_eq_spec]

theorem allCells_eq_rowMajor {board : Board} (h10 : shape10 board = true) :
    allCells board = rowMajor := by
  rcases shape10_iff_getD.mp h10 with ⟨hl, hr⟩
  unfold allCells rowMajor
  rw [hl]
  apply list_flatMap_congr
  intro i hi
  rw [hr i (List.mem_range.mp hi)]
  rfl

theorem quantityPure_eq_specFleetScan {board : Board} (h10 : shape10 board = true) :
    quantityPure board = specFleetScan board := by
  rw [quantityPure_def, specFleetScan, stepPure_eq_spec, allCells_eq_rowMajor h10]

/-- C2: on a shape-correct board the embedded fleet validator behaves
exactly as the specification words it: row-major scan of the working copy,
strict 4-3-2 priority with vertical-or-horizontal positive extensions judged
on the current board, trailing cells of every matched extension cleared, the
matched length's tally decremented once per origin cell (1 when nothing
matches), and success exactly when every tally ends at zero. -/
theorem claim2_fleet_counting (board : Board) (h10 : shape10 board = true) :
    quantity_validate board =
      (if specFleetScan board then Except.ok true else Except.error PyErr.valueError) := by
  rw [quantity_validate_eq h10, quantityPure_eq_specFleetScan h10]

theorem claim2_witness :
    shape10 cheatBoard = true ∧
      quantity_validate cheatBoard =
        (if specFleetScan cheatBoard then Except.ok true
         else Except.error PyErr.valueError) :=
  ⟨by decide, claim2_fleet_counting cheatBoard (by decide)⟩

end Battleship

namespace Battleship

/-! ## Object-identity model for the no-mutation claim (C7)

Python objects live on a heap; `BattleShipsQuantityValidator.__init__`
deep-copies the caller's grid into a fresh object (`deepcopy(board)`,
main.py line 109) and every write of its scan lands in that copy, while the
other two validators only read the caller's object.  The heap is a list of
boards addressed by position. -/

def heapRead (heap : List Board) (r : Nat) : Board := heap.getD r []

/-- `validate_battlefield` with the caller's grid as heap object `r`:
returns the Python result together with the heap after the call.  The fleet
counter allocates a fresh slot holding a copy of the caller's grid; the
copy's final contents after the scan are recorded in that slot. -/
def validate_battlefield_heap (heap : List Board) (r : Nat) :
    (Except PyErr Bool) × List Board :=
  match board_validate (heapRead heap r) with
  | .error .valueError => (.ok false, heap)
  | .error .indexError => (.error .indexError, heap)
  | .ok _ =>
    match ships_validate (heapRead heap r) with
    | .error .valueError => (.ok false, heap)
    | .error .indexError => (.error .indexError, heap)
    | .ok _ =>
      match quantity_validate_result (heapRead (heap ++ [heapRead heap r]) heap.length) with
      | .error .valueError => (.ok false, heap ++ [heapRead heap r])
      | .error .indexError => (.error .indexError, heap ++ [heapRead heap r])
      | .ok (bfinal, cnt) =>
        if cnt = zeroCounts then
          (.ok true, (heap ++ [heapRead heap r]).set heap.length bfinal)
        else
          (.ok false, (heap ++ [heapRead heap r]).set heap.length bfinal)

theorem heapRead_append_self (heap : List Board) (x : Board) :
    heapRead (heap ++ [x]) heap.length = x := by
  unfold heapRead
  rw [List.getD_eq_getElem?_getD, List.getElem?_append_right (le_refl _)]
  simp

theorem heapRead_append_lt {heap : List Board} {q : Nat} (hq : q < heap.length)
    (x : Board) : heapRead (heap ++ [x]) q = heapRead heap q := by
  unfold heapRead
  rw [List.getD_eq_getElem?_getD, List.getElem?_append, if_pos hq,
    List.getD_eq_getElem?_getD]

theorem heapRead_set_append {heap : List Board} {q : Nat} (hq : q < heap.length)
    (x y : Board) :
    heapRead ((heap ++ [x]).set heap.length y) q = heapRead heap q := by
  unfold heapRead
  rw [getD_set_list, if_neg (by omega), List.getD_eq_getElem?_getD,
    List.getElem?_append, if_pos hq, List.getD_eq_getElem?_getD]

/-- Behaviour of one heap-level call: the result is that of the plain
function on the caller's grid, every pre-existing heap object is unchanged,
and the heap only grows. -/
theorem validate_battlefield_heap_spec (heap : List Board) (r : Nat) :
    (validate_battlefield_heap heap r).1 = validate_battlefield (heapRead heap r) ∧
      (∀ q, q < heap.length →
        heapRead (validate_battlefield_heap heap r).2 q = heapRead heap q) ∧
      heap.length ≤ (validate_battlefield_heap heap r).2.length := by
  unfold validate_battlefield_heap validate_battlefield quantity_validate
  rw [heapRead_append_self]
  cases hbv : board_validate (heapRead heap r) with
  | error e => cases e <;> exact ⟨rfl, fun q hq => rfl, le_refl _⟩
  | ok b =>
    cases hsv : ships_validate (heapRead heap r) with
    | error e => cases e <;> exact ⟨rfl, fun q hq => rfl, le_refl _⟩
    | ok b2 =>
      cases hqv : quantity_validate_result (heapRead heap r) with
      | error e =>
        cases e
        · exact ⟨rfl, fun q hq => heapRead_append_lt hq _, by simp⟩
        · exact ⟨rfl, fun q hq => heapRead_append_lt hq _, by simp⟩
      | ok res =>
        obtain ⟨bfinal, cnt⟩ := res
        refine ⟨?_, ?_, ?_⟩
        · by_cases hz : cnt = zeroCounts <;> simp [hz]
        · intro q hq
          by_cases hz : cnt = zeroCounts <;>
            simp [hz, heapRead_set_append hq, heapRead_append_lt hq]
        · by_cases hz : cnt = zeroCounts <;> simp [hz]

/-- C7: calling `validate_battlefield` twice on the same grid object yields
the same result, and the caller's grid (indeed every pre-existing object) is
unchanged after either call: the fleet counter's mutation stays inside its
private deep copy. -/
theorem claim7_no_mutation (heap : List Board) (r : Nat) (hr : r < heap.length) :
    (validate_battlefield_heap heap r).1 = validate_battlefield (heapRead heap r) ∧
      (∀ q, q < heap.length →
        heapRead (validate_battlefield_heap heap r).2 q = heapRead heap q) ∧
      (validate_battlefield_heap (validate_battlefield_heap heap r).2 r).1 =
        (validate_battlefield_heap heap r).1 := by
  obtain ⟨h1, h2, h3⟩ := validate_battlefield_heap_spec heap r
  refine ⟨h1, h2, ?_⟩
  obtain ⟨h1', _, _⟩ := validate_battlefield_heap_spec (validate_battlefield_heap heap r).2 r
  rw [h1', h2 r hr, h1]

theorem claim7_witness :
    0 < ([cheatBoard] : List Board).length ∧
      ((validate_battlefield_heap [cheatBoard] 0).1 =
          validate_battlefield (heapRead [cheatBoard] 0) ∧
        (∀ q, q < ([cheatBoard] : List Board).length →
          heapRead (validate_battlefield_heap [cheatBoard] 0).2 q =
            heapRead [cheatBoard] q) ∧
        (validate_battlefield_heap (validate_battlefield_heap [cheatBoard] 0).2 0).1 =
          (validate_battlefield_heap [cheatBoard] 0).1) :=
  ⟨by decide, claim7_no_mutation [cheatBoard] 0 (by decide)⟩

end Battleship

namespace Battleship

/-! ## Ship placements (claim C6)

A fleet is a list of straight in-bounds ships; `render` produces the grid
populated with exactly those ships.  Separation is the spec's "at least one
empty cell in every orthogonal and diagonal direction": any two cells of
distinct ships differ by at least 2 in some coordinate. -/

structure Ship where
  r : Nat
  c : Nat
  horiz : Bool
  len : Nat
deriving DecidableEq, Repr

/-- The coordinates occupied by a ship. -/
def Ship.cells (s : Ship) : List (Nat × Nat) :=
  if s.horiz then (List.range s.len).map (fun k => (s.r, s.c + k))
  else (List.range s.len).map (fun k => (s.r + k, s.c))

/-- The topmost-leftmost cell of a ship. -/
def Ship.origin (s : Ship) : Nat × Nat := (s.r, s.c)

/-- The ship fits on the 10x10 board. -/
def Ship.inBounds (s : Ship) : Prop :=
  s.r < 10 ∧ s.c < 10 ∧ (s.horiz = true → s.c + s.len ≤ 10) ∧
    (s.horiz = false → s.r + s.len ≤ 10)

/-- Two ships are separated by at least one empty cell in every direction:
any two of their cells differ by at least 2 in some coordinate. -/
def shipSep (s t : Ship) : Prop :=
  ∀ p ∈ s.cells, ∀ q ∈ t.cells,
    (p.1 + 2 ≤ q.1 ∨ q.1 + 2 ≤ p.1) ∨ (p.2 + 2 ≤ q.2 ∨ q.2 + 2 ≤ p.2)

instance (s : Ship) : Decidable s.inBounds := by
  unfold Ship.inBounds
  infer_instance

instance (s t : Ship) : Decidable (shipSep s t) := by
  unfold shipSep
  infer_instance

/-- The cell is occupied by some ship of the fleet. -/
def covered (ships : List Ship) (i j : Nat) : Bool :=
  ships.any (fun s => decide ((i, j) ∈ s.cells))

/-- The 10x10 grid populated with exactly the given ships. -/
def render (ships : List Ship) : Board :=
  (List.range 10).map
    (fun i => (List.range 10).map (fun j => if covered ships i j then 1 else 0))

theorem mem_cells {s : Ship} {a b : Nat} :
    (a, b) ∈ s.cells ↔
      ((s.horiz = true ∧ a = s.r ∧ s.c ≤ b ∧ b < s.c + s.len) ∨
       (s.horiz = false ∧ b = s.c ∧ s.r ≤ a ∧ a < s.r + s.len)) := by
  unfold Ship.cells
  cases hh : s.horiz
  · rw [if_neg (by simp)]
    simp only [List.mem_map, List.mem_range]
    constructor
    · rintro ⟨k, hk, heq⟩
      obtain ⟨h1, h2⟩ := Prod.mk.injEq .. ▸ heq
      right
      refine ⟨by simp, by omega, by omega, by omega⟩
    · rintro (⟨hcontra, _⟩ | ⟨_, hb, h1, h2⟩)
      · cases hcontra
      · exact ⟨a - s.r, by omega, by rw [hb]; congr 1; omega⟩
  · rw [if_pos rfl]
    simp only [List.mem_map, List.mem_range]
    constructor
    · rintro ⟨k, hk, heq⟩
      obtain ⟨h1, h2⟩ := Prod.mk.injEq .. ▸ heq
      left
      refine ⟨by simp, by omega, by omega, by omega⟩
    · rintro (⟨_, ha, h1, h2⟩ | ⟨hcontra, _⟩)
      · exact ⟨b - s.c, by omega, by rw [ha]; congr 1; omega⟩
      · cases hcontra

theorem origin_mem {s : Ship} (h : 1 ≤ s.len) : s.origin ∈ s.cells := by
  rw [Ship.origin, mem_cells]
  cases hh : s.horiz
  · right; exact ⟨rfl, rfl, le_refl _, by omega⟩
  · left; exact ⟨rfl, rfl, le_refl _, by omega⟩

theorem shipSep_symm : Symmetric shipSep := by
  intro s t h p hp q hq
  rcases h q hq p hp with (h' | h') | (h' | h') <;> omega

theorem cells_unique {ships : List Ship} (hpw : ships.Pairwise shipSep)
    {s t : Ship} (hs : s ∈ ships) (ht : t ∈ ships) {a b a' b' : Nat}
    (hp : (a, b) ∈ s.cells) (hq : (a', b') ∈ t.cells)
    (h1 : a ≤ a' + 1) (h2 : a' ≤ a + 1) (h3 : b ≤ b' + 1) (h4 : b' ≤ b + 1) :
    s = t := by
  by_contra hne
  rcases hpw.forall shipSep_symm hs ht hne (a, b) hp (a', b') hq with
    (h | h) | (h | h) <;> simp at h <;> omega

theorem covered_iff {ships : List Ship} {i j : Nat} :
    covered ships i j = true ↔ ∃ s ∈ ships, (i, j) ∈ s.cells := by
  simp [covered, List.any_eq_true]

theorem not_covered_near {ships : List Ship} (hpw : ships.Pairwise shipSep)
    {s : Ship} (hs : s ∈ ships) {a b a' b' : Nat}
    (hq : (a, b) ∈ s.cells) (h1 : a ≤ a' + 1) (h2 : a' ≤ a + 1)
    (h3 : b ≤ b' + 1) (h4 : b' ≤ b + 1)
    (hnot : (a', b') ∉ s.cells) : covered ships a' b' = false := by
  rw [← Bool.not_eq_true, covered_iff]
  rintro ⟨t, ht, htc⟩
  exact hnot ((cells_unique hpw hs ht hq htc h1 h2 h3 h4) ▸ htc)

theorem cell_render (ships : List Ship) (i j : Nat) :
    cell (render ships) i j =
      if i < 10 ∧ j < 10 then (if covered ships i j then 1 else 0) else 0 := by
  unfold cell render
  simp only [List.getD_eq_getElem?_getD, List.getElem?_map]
  by_cases hi : i < 10
  · rw [List.getElem?_range hi]
    simp only [Option.map_some', Option.getD_some, List.getElem?_map]
    by_cases hj : j < 10
    · rw [List.getElem?_range hj]
      simp only [Option.map_some', Option.getD_some]
      rw [if_pos (show i < 10 ∧ j < 10 from ⟨hi, hj⟩)]
    · rw [List.getElem?_eq_none
        (by simp only [List.length_map, List.length_range]; omega)]
      rw [if_neg (fun hc => hj hc.2)]
      rfl
  · rw [List.getElem?_eq_none (l := List.range 10)
      (by simp only [List.length_range]; omega)]
    rw [if_neg (fun hc => hi hc.1)]
    rfl

theorem shape10_render (ships : List Ship) : shape10 (render ships) = true := by
  rw [shape10_iff]
  constructor
  · simp [render, board_length]
  · intro row hrow
    obtain ⟨i, _, rfl⟩ := List.mem_map.mp hrow
    simp [board_length]

theorem mem_rowMajor {p : Nat × Nat} : p ∈ rowMajor ↔ p.1 < 10 ∧ p.2 < 10 := by
  obtain ⟨i, j⟩ := p
  unfold rowMajor
  rw [List.mem_flatMap]
  constructor
  · rintro ⟨a, ha, hmem⟩
    obtain ⟨b, hb, heq⟩ := List.mem_map.mp hmem
    obtain ⟨h1, h2⟩ := Prod.mk.injEq .. ▸ heq
    exact ⟨h1 ▸ List.mem_range.mp ha, h2 ▸ List.mem_range.mp hb⟩
  · rintro ⟨h1, h2⟩
    exact ⟨i, List.mem_range.mpr h1,
      List.mem_map.mpr ⟨j, List.mem_range.mpr h2, rfl⟩⟩

end Battleship

namespace Battleship

/-- Row-major (lexicographic) order on coordinates. -/
def rmLt (p q : Nat × Nat) : Prop := p.1 < q.1 ∨ (p.1 = q.1 ∧ p.2 < q.2)

instance (p q : Nat × Nat) : Decidable (rmLt p q) := by
  unfold rmLt
  infer_instance

theorem rowMajor_pairwise : rowMajor.Pairwise rmLt := by decide

theorem split_mem_left {A B : List (Nat × Nat)} {p q : Nat × Nat}
    (hsplit : rowMajor = A ++ p :: B) (hq : q ∈ rowMajor) (hlt : rmLt q p) :
    q ∈ A := by
  have hpw := rowMajor_pairwise
  rw [hsplit] at hpw hq
  rcases List.mem_append.mp hq with h | h
  · exact h
  · exfalso
    rcases List.mem_cons.mp h with rfl | h'
    · unfold rmLt at hlt
      omega
    · have hpq : rmLt p q := by
        obtain ⟨_, hpc, _⟩ := List.pairwise_append.mp hpw
        exact (List.pairwise_cons.mp hpc).1 q h'
      unfold rmLt at hlt hpq
      omega

theorem split_not_mem {A B : List (Nat × Nat)} {p : Nat × Nat}
    (hsplit : rowMajor = A ++ p :: B) : p ∉ A := by
  have hpw := rowMajor_pairwise
  rw [hsplit] at hpw
  obtain ⟨_, _, hAB⟩ := List.pairwise_append.mp hpw
  intro hmem
  have := hAB p hmem p (List.mem_cons_self _ _)
  unfold rmLt at this
  omega

theorem split_mem_rowMajor {A B : List (Nat × Nat)} {p : Nat × Nat}
    (hsplit : rowMajor = A ++ p :: B) : p.1 < 10 ∧ p.2 < 10 :=
  mem_rowMajor.mp (by rw [hsplit]; exact List.mem_append_right _ (List.mem_cons_self _ _))

theorem ships_nodup :
    ∀ {ships : List Ship}, ships.Pairwise shipSep → (∀ s ∈ ships, 1 ≤ s.len) →
      ships.Nodup := by
  intro ships
  induction ships with
  | nil => intro _ _; exact List.nodup_nil
  | cons s l ih =>
    intro hpw hlen
    obtain ⟨hhead, htail⟩ := List.pairwise_cons.mp hpw
    refine List.nodup_cons.mpr ⟨?_, ih htail (fun t ht => hlen t (List.mem_cons_of_mem _ ht))⟩
    intro hmem
    have hsep := hhead s hmem
    have horg : s.origin ∈ s.cells := origin_mem (hlen s (List.mem_cons_self _ _))
    rcases hsep s.origin horg s.origin horg with (h | h) | (h | h) <;> omega

theorem countP_flip {ships : List Ship} :
    ∀ {s : Ship}, ships.Nodup → s ∈ ships →
      ∀ (pNew pOld : Ship → Bool), pOld s = false → pNew s = true →
      (∀ t ∈ ships, t ≠ s → pNew t = pOld t) →
      ships.countP pNew = ships.countP pOld + 1 := by
  induction ships with
  | nil => intro s _ hs; cases hs
  | cons a l ih =>
    intro s hnd hs pNew pOld hsold hsnew hother
    rw [List.countP_cons, List.countP_cons]
    rcases List.mem_cons.mp hs with rfl | hs'
    · have hl : ∀ t ∈ l, pNew t = pOld t := fun t ht =>
        hother t (List.mem_cons_of_mem _ ht)
          (fun he => (List.nodup_cons.mp hnd).1 (he ▸ ht))
      have hc : l.countP pNew = l.countP pOld :=
        List.countP_congr (fun x hx => by rw [hl x hx])
      rw [hc, hsnew, hsold]
      simp
    · have hanes : a ≠ s := fun he => (List.nodup_cons.mp hnd).1 (he ▸ hs')
      rw [hother a (List.mem_cons_self _ _) hanes]
      rw [ih (List.nodup_cons.mp hnd).2 hs' pNew pOld hsold hsnew
        (fun t ht hne => hother t (List.mem_cons_of_mem _ ht) hne)]
      omega

end Battleship

namespace Battleship

/-- Cells already attributed and zeroed by the scan: trailing (non-origin)
cells of ships whose origin has been processed. -/
def clearedP (ships : List Ship) (A : List (Nat × Nat)) (i j : Nat) : Prop :=
  ∃ s ∈ ships, s.origin ∈ A ∧ (i, j) ∈ s.cells ∧ (i, j) ≠ s.origin

instance (ships : List Ship) (A : List (Nat × Nat)) (i j : Nat) :
    Decidable (clearedP ships A i j) := by
  unfold clearedP
  infer_instance

/-- Number of ships of length `L` whose origin has been processed. -/
def processedCount (ships : List Ship) (A : List (Nat × Nat)) (L : Nat) : Nat :=
  ships.countP (fun s => decide (s.origin ∈ A) && decide (s.len = L))

/-- Invariant of the fleet scan after processing the cells of `A`:
the working board holds the rendered fleet minus the trailing cells of
processed ships, and each tally is its initial value minus the number of
processed ships of that length. -/
def FleetInv (ships : List Ship) (A : List (Nat × Nat)) (st : Board × ShipCounts) :
    Prop :=
  shape10 st.1 = true ∧
    (∀ i j, i < 10 → j < 10 →
      cell st.1 i j =
        if covered ships i j = true ∧ ¬clearedP ships A i j then 1 else 0) ∧
    st.2.c1 = 4 - (processedCount ships A 1 : Int) ∧
    st.2.c2 = 3 - (processedCount ships A 2 : Int) ∧
    st.2.c3 = 2 - (processedCount ships A 3 : Int) ∧
    st.2.c4 = 1 - (processedCount ships A 4 : Int)

theorem origin_append_iff {A : List (Nat × Nat)} {p q : Nat × Nat} (hne : q ≠ p) :
    q ∈ A ++ [p] ↔ q ∈ A := by
  rw [List.mem_append, List.mem_singleton]
  exact ⟨fun h => h.resolve_right hne, Or.inl⟩

theorem cleared_stable {ships : List Ship} {A : List (Nat × Nat)} {p : Nat × Nat}
    (hnoorig : ∀ t ∈ ships, t.origin ≠ p) (a b : Nat) :
    clearedP ships (A ++ [p]) a b ↔ clearedP ships A a b := by
  unfold clearedP
  constructor
  · rintro ⟨t, ht, hA, hc, hno⟩
    exact ⟨t, ht, (origin_append_iff (hnoorig t ht)).mp hA, hc, hno⟩
  · rintro ⟨t, ht, hA, hc, hno⟩
    exact ⟨t, ht, List.mem_append_left _ hA, hc, hno⟩

theorem processed_stable {ships : List Ship} {A : List (Nat × Nat)} {p : Nat × Nat}
    {L : Nat} (hnoorig : ∀ t ∈ ships, t.origin ≠ p) :
    processedCount ships (A ++ [p]) L = processedCount ships A L := by
  unfold processedCount
  apply List.countP_congr
  intro t ht
  simp only [Bool.and_eq_true, decide_eq_true_eq]
  rw [origin_append_iff (hnoorig t ht)]

theorem origin_eq_ship {ships : List Ship} (hpw : ships.Pairwise shipSep)
    (hlen1 : ∀ t ∈ ships, 1 ≤ t.len) {s : Ship} (hs : s ∈ ships) {i j : Nat}
    (horg : s.origin = (i, j)) :
    ∀ t ∈ ships, t.origin = (i, j) → t = s := by
  intro t ht htorg
  have hsc : (i, j) ∈ s.cells := horg ▸ origin_mem (hlen1 s hs)
  have htc : (i, j) ∈ t.cells := htorg ▸ origin_mem (hlen1 t ht)
  exact cells_unique hpw ht hs htc hsc (by omega) (by omega) (by omega) (by omega)

theorem cleared_append_origin {ships : List Ship} {A : List (Nat × Nat)}
    (hpw : ships.Pairwise shipSep) (hlen1 : ∀ t ∈ ships, 1 ≤ t.len)
    {s : Ship} (hs : s ∈ ships) {i j : Nat} (horg : s.origin = (i, j)) (a b : Nat) :
    clearedP ships (A ++ [(i, j)]) a b ↔
      (clearedP ships A a b ∨ ((a, b) ∈ s.cells ∧ (a, b) ≠ s.origin)) := by
  unfold clearedP
  constructor
  · rintro ⟨t, ht, hA, hc, hno⟩
    rcases List.mem_append.mp hA with h | h
    · exact Or.inl ⟨t, ht, h, hc, hno⟩
    · rw [List.mem_singleton] at h
      have hts : t = s := origin_eq_ship hpw hlen1 hs horg t ht h
      subst hts
      exact Or.inr ⟨hc, hno⟩
  · rintro (⟨t, ht, hA, hc, hno⟩ | ⟨hc, hno⟩)
    · exact ⟨t, ht, List.mem_append_left _ hA, hc, hno⟩
    · exact ⟨s, hs, List.mem_append_right _ (by rw [horg]; exact List.mem_singleton.mpr rfl),
        hc, hno⟩

theorem processed_append_origin {ships : List Ship} {A : List (Nat × Nat)} {L : Nat}
    (hpw : ships.Pairwise shipSep) (hlen1 : ∀ t ∈ ships, 1 ≤ t.len)
    (hnd : ships.Nodup) {s : Ship} (hs : s ∈ ships) {i j : Nat}
    (horg : s.origin = (i, j)) (hnA : (i, j) ∉ A) :
    processedCount ships (A ++ [(i, j)]) L =
      processedCount ships A L + (if s.len = L then 1 else 0) := by
  unfold processedCount
  by_cases hsl : s.len = L
  · rw [if_pos hsl]
    apply countP_flip hnd hs
    · simp [horg, hnA]
    · simp [horg, hsl]
    · intro t ht htne
      have hto : t.origin ≠ (i, j) := fun he =>
        htne (origin_eq_ship hpw hlen1 hs horg t ht he)
      rw [show (decide (t.origin ∈ A ++ [(i, j)])) = decide (t.origin ∈ A) from
        decide_eq_decide.mpr (origin_append_iff hto)]
  · rw [if_neg hsl, Nat.add_zero]
    apply List.countP_congr
    intro t ht
    simp only [Bool.and_eq_true, decide_eq_true_eq]
    by_cases htes : t = s
    · subst htes
      simp [hsl]
    · have hto : t.origin ≠ (i, j) := fun he =>
        htes (origin_eq_ship hpw hlen1 hs horg t ht he)
      rw [origin_append_iff hto]

theorem inv_stable {ships : List Ship} {A : List (Nat × Nat)} {p : Nat × Nat}
    {st : Board × ShipCounts} (hnoorig : ∀ t ∈ ships, t.origin ≠ p)
    (hinv : FleetInv ships A st) : FleetInv ships (A ++ [p]) st := by
  obtain ⟨h1, h2, h3, h4, h5, h6⟩ := hinv
  refine ⟨h1, ?_, ?_, ?_, ?_, ?_⟩
  · intro a b ha hb
    rw [h2 a b ha hb]
    simp only [cleared_stable hnoorig]
  · rw [h3, processed_stable hnoorig]
  · rw [h4, processed_stable hnoorig]
  · rw [h5, processed_stable hnoorig]
  · rw [h6, processed_stable hnoorig]

end Battleship

namespace Battleship

theorem board_length_eq : board_length = 10 := rfl

theorem gnPure_coe (w : Board) (a b : Nat) :
    gnPure w (a : Int) (b : Int) =
      if a < board_length ∧ b < board_length then cell w a b else 0 := by
  unfold gnPure
  by_cases h : a < board_length ∧ b < board_length
  · rw [if_pos (by omega), if_pos h, Int.toNat_natCast, Int.toNat_natCast]
  · rw [if_neg (by omega), if_neg h]

theorem gnPure_inv_occ {ships : List Ship} {A : List (Nat × Nat)} {w : Board}
    {cnt : ShipCounts} (hinv : FleetInv ships A (w, cnt)) (a b : Nat) :
    (gnPure w (a : Int) (b : Int) ≠ 0) ↔
      (a < 10 ∧ b < 10 ∧ covered ships a b = true ∧ ¬clearedP ships A a b) := by
  have hbl := board_length_eq
  rw [gnPure_coe]
  by_cases h : a < board_length ∧ b < board_length
  · rw [if_pos h, hinv.2.1 a b (by omega) (by omega)]
    by_cases hc : covered ships a b = true ∧ ¬clearedP ships A a b
    · rw [if_pos hc]
      simp only [ne_eq, one_ne_zero, not_false_eq_true, true_iff]
      exact ⟨by omega, by omega, hc.1, hc.2⟩
    · rw [if_neg hc]
      simp only [ne_eq, not_true_eq_false, false_iff]
      rintro ⟨_, _, h1, h2⟩
      exact hc ⟨h1, h2⟩
  · simp only [if_neg h, ne_eq, not_true_eq_false, false_iff]
    rintro ⟨h1, h2, _⟩
    exact h ⟨by omega, by omega⟩

/-- Under the invariant, every cell of a still-unprocessed ship reads
occupied on the working board. -/
theorem inv_occ_of_ship {ships : List Ship} {A : List (Nat × Nat)} {w : Board}
    {cnt : ShipCounts} (hpw : ships.Pairwise shipSep)
    (hinv : FleetInv ships A (w, cnt)) {s : Ship} (hs : s ∈ ships)
    (hnA : s.origin ∉ A) {a b : Nat} (hcell : (a, b) ∈ s.cells)
    (ha : a < 10) (hb' : b < 10) :
    gnPure w (a : Int) (b : Int) ≠ 0 := by
  rw [gnPure_inv_occ hinv]
  refine ⟨ha, hb', covered_iff.mpr ⟨s, hs, hcell⟩, ?_⟩
  rintro ⟨t, ht, htA, htc, _⟩
  have hts : t = s :=
    cells_unique hpw ht hs htc hcell (by omega) (by omega) (by omega) (by omega)
  subst hts
  exact hnA htA

/-- Under the invariant, a cell next to a ship but outside it reads empty
(other ships cannot be that close). -/
theorem inv_empty_near {ships : List Ship} {A : List (Nat × Nat)} {w : Board}
    {cnt : ShipCounts} (hpw : ships.Pairwise shipSep)
    (hinv : FleetInv ships A (w, cnt)) {s : Ship} (hs : s ∈ ships)
    {a b a' b' : Nat} (hq : (a, b) ∈ s.cells)
    (h1 : a ≤ a' + 1) (h2 : a' ≤ a + 1) (h3 : b ≤ b' + 1) (h4 : b' ≤ b + 1)
    (hnot : (a', b') ∉ s.cells) :
    gnPure w (a' : Int) (b' : Int) = 0 := by
  by_contra hne
  obtain ⟨_, _, hcov, _⟩ := (gnPure_inv_occ hinv a' b').mp hne
  rw [not_covered_near hpw hs hq h1 h2 h3 h4 hnot] at hcov
  cases hcov

theorem vertExt_at_origin {ships : List Ship} {A : List (Nat × Nat)}
    (hb : ∀ t ∈ ships, t.inBounds) (hpw : ships.Pairwise shipSep)
    (hlen1 : ∀ t ∈ ships, 1 ≤ t.len)
    {w : Board} {cnt : ShipCounts} (hinv : FleetInv ships A (w, cnt))
    {s : Ship} (hs : s ∈ ships) {i j : Nat} (horg : s.origin = (i, j))
    (hnA : (i, j) ∉ A) {L' : Nat} (hL' : 2 ≤ L') :
    (vertExtPure w i j L' = true ↔ (s.horiz = false ∧ L' ≤ s.len)) := by
  obtain ⟨hr, hc⟩ : s.r = i ∧ s.c = j := by
    rw [Ship.origin] at horg
    exact ⟨congrArg Prod.fst horg, congrArg Prod.snd horg⟩
  have horigmem : (i, j) ∈ s.cells := horg ▸ origin_mem (hlen1 s hs)
  constructor
  · intro hall
    rw [vertExtPure, List.all_eq_true] at hall
    have h1 := hall 1 (by rw [List.mem_range']; exact ⟨0, by omega, by omega⟩)
    rw [decide_eq_true_eq] at h1
    obtain ⟨hi1, hj1, hcov1, _⟩ := (gnPure_inv_occ hinv (i + 1) j).mp h1
    obtain ⟨t, ht, htc⟩ := covered_iff.mp hcov1
    have hts : t = s := cells_unique hpw ht hs htc horigmem
      (by omega) (by omega) (by omega) (by omega)
    rw [hts, mem_cells] at htc
    have hhoriz : s.horiz = false := by
      rcases htc with ⟨_, h1', _⟩ | ⟨hh, _⟩
      · omega
      · exact hh
    refine ⟨hhoriz, ?_⟩
    by_contra hgt
    push_neg at hgt
    have hkL := hall s.len
      (by rw [List.mem_range']
          exact ⟨s.len - 1, by have := hlen1 s hs; omega, by have := hlen1 s hs; omega⟩)
    rw [decide_eq_true_eq] at hkL
    obtain ⟨hi2, hj2, hcov2, _⟩ := (gnPure_inv_occ hinv (i + s.len) j).mp hkL
    obtain ⟨t, ht, htc2⟩ := covered_iff.mp hcov2
    have hlast : (i + s.len - 1, j) ∈ s.cells := by
      rw [mem_cells]
      right
      refine ⟨hhoriz, hc.symm, by have := hlen1 s hs; omega, by have := hlen1 s hs; omega⟩
    have hts2 : t = s := cells_unique hpw ht hs htc2 hlast
      (by have := hlen1 s hs; omega) (by have := hlen1 s hs; omega)
      (by omega) (by omega)
    rw [hts2, mem_cells] at htc2
    rcases htc2 with ⟨hh, _⟩ | ⟨_, _, _, hlt⟩
    · rw [hhoriz] at hh
      cases hh
    · omega
  · rintro ⟨hh, hle⟩
    rw [vertExtPure, List.all_eq_true]
    intro k hk
    have hk1 : 1 ≤ k ∧ k < L' := by
      rw [List.mem_range'] at hk
      obtain ⟨m, hm, rfl⟩ := hk
      omega
    rw [decide_eq_true_eq]
    apply inv_occ_of_ship hpw hinv hs (horg ▸ hnA)
    · rw [mem_cells]
      right
      exact ⟨hh, hc.symm, by omega, by omega⟩
    · have hbs := (hb s hs).2.2.2 hh
      omega
    · have hbs := (hb s hs).2.1
      omega

theorem horizExt_at_origin {ships : List Ship} {A : List (Nat × Nat)}
    (hb : ∀ t ∈ ships, t.inBounds) (hpw : ships.Pairwise shipSep)
    (hlen1 : ∀ t ∈ ships, 1 ≤ t.len)
    {w : Board} {cnt : ShipCounts} (hinv : FleetInv ships A (w, cnt))
    {s : Ship} (hs : s ∈ ships) {i j : Nat} (horg : s.origin = (i, j))
    (hnA : (i, j) ∉ A) {L' : Nat} (hL' : 2 ≤ L') :
    (horizExtPure w i j L' = true ↔ (s.horiz = true ∧ L' ≤ s.len)) := by
  obtain ⟨hr, hc⟩ : s.r = i ∧ s.c = j := by
    rw [Ship.origin] at horg
    exact ⟨congrArg Prod.fst horg, congrArg Prod.snd horg⟩
  have horigmem : (i, j) ∈ s.cells := horg ▸ origin_mem (hlen1 s hs)
  constructor
  · intro hall
    rw [horizExtPure, List.all_eq_true] at hall
    have h1 := hall 1 (by rw [List.mem_range']; exact ⟨0, by omega, by omega⟩)
    rw [decide_eq_true_eq] at h1
    obtain ⟨hi1, hj1, hcov1, _⟩ := (gnPure_inv_occ hinv i (j + 1)).mp h1
    obtain ⟨t, ht, htc⟩ := covered_iff.mp hcov1
    have hts : t = s := cells_unique hpw ht hs htc horigmem
      (by omega) (by omega) (by omega) (by omega)
    rw [hts, mem_cells] at htc
    have hhoriz : s.horiz = true := by
      rcases htc with ⟨hh, _⟩ | ⟨_, h1', _⟩
      · exact hh
      · omega
    refine ⟨hhoriz, ?_⟩
    by_contra hgt
    push_neg at hgt
    have hkL := hall s.len
      (by rw [List.mem_range']
          exact ⟨s.len - 1, by have := hlen1 s hs; omega, by have := hlen1 s hs; omega⟩)
    rw [decide_eq_true_eq] at hkL
    obtain ⟨hi2, hj2, hcov2, _⟩ := (gnPure_inv_occ hinv i (j + s.len)).mp hkL
    obtain ⟨t, ht, htc2⟩ := covered_iff.mp hcov2
    have hlast : (i, j + s.len - 1) ∈ s.cells := by
      rw [mem_cells]
      left
      refine ⟨hhoriz, hr.symm, by have := hlen1 s hs; omega, by have := hlen1 s hs; omega⟩
    have hts2 : t = s := cells_unique hpw ht hs htc2 hlast
      (by omega) (by omega)
      (by have := hlen1 s hs; omega) (by have := hlen1 s hs; omega)
    rw [hts2, mem_cells] at htc2
    rcases htc2 with ⟨_, _, _, hlt⟩ | ⟨hh, _⟩
    · omega
    · rw [hhoriz] at hh
      cases hh
  · rintro ⟨hh, hle⟩
    rw [horizExtPure, List.all_eq_true]
    intro k hk
    have hk1 : 1 ≤ k ∧ k < L' := by
      rw [List.mem_range'] at hk
      obtain ⟨m, hm, rfl⟩ := hk
      omega
    rw [decide_eq_true_eq]
    apply inv_occ_of_ship hpw hinv hs (horg ▸ hnA)
    · rw [mem_cells]
      left
      exact ⟨hh, hr.symm, by omega, by omega⟩
    · have hbs := (hb s hs).1
      omega
    · have hbs := (hb s hs).2.2.1 hh
      omega

end Battleship

namespace Battleship

theorem trailing_vert {s : Ship} (hh : s.horiz = false) {i j : Nat}
    (horg : s.origin = (i, j)) (a b : Nat) :
    ((a, b) ∈ (List.range' 1 (s.len - 1)).map (fun k => (i + k, j)) ↔
      ((a, b) ∈ s.cells ∧ (a, b) ≠ s.origin)) := by
  obtain ⟨hr, hc⟩ : s.r = i ∧ s.c = j := by
    rw [Ship.origin] at horg
    exact ⟨congrArg Prod.fst horg, congrArg Prod.snd horg⟩
  constructor
  · intro hmem
    obtain ⟨k, hk, heq⟩ := List.mem_map.mp hmem
    rw [List.mem_range'] at hk
    obtain ⟨m, hm, rfl⟩ := hk
    obtain ⟨ha, hb'⟩ : i + (1 + 1 * m) = a ∧ j = b :=
      ⟨congrArg Prod.fst heq, congrArg Prod.snd heq⟩
    constructor
    · rw [mem_cells]
      right
      exact ⟨hh, by omega, by omega, by omega⟩
    · rw [horg]
      intro he
      have : a = i ∧ b = j :=
        ⟨congrArg Prod.fst he, congrArg Prod.snd he⟩
      omega
  · rintro ⟨hcell, hne⟩
    rw [mem_cells] at hcell
    rcases hcell with ⟨hcontra, _⟩ | ⟨_, hb', h1, h2⟩
    · rw [hh] at hcontra
      cases hcontra
    · have hane : a ≠ i := by
        intro he
        exact hne (by rw [horg, he, hb', hc])
      refine List.mem_map.mpr ⟨a - i, ?_, ?_⟩
      · rw [List.mem_range']
        exact ⟨a - i - 1, by omega, by omega⟩
      · have : i + (a - i) = a := by omega
        rw [this, hb', hc]

theorem trailing_horiz {s : Ship} (hh : s.horiz = true) {i j : Nat}
    (horg : s.origin = (i, j)) (a b : Nat) :
    ((a, b) ∈ (List.range' 1 (s.len - 1)).map (fun k => (i, j + k)) ↔
      ((a, b) ∈ s.cells ∧ (a, b) ≠ s.origin)) := by
  obtain ⟨hr, hc⟩ : s.r = i ∧ s.c = j := by
    rw [Ship.origin] at horg
    exact ⟨congrArg Prod.fst horg, congrArg Prod.snd horg⟩
  constructor
  · intro hmem
    obtain ⟨k, hk, heq⟩ := List.mem_map.mp hmem
    rw [List.mem_range'] at hk
    obtain ⟨m, hm, rfl⟩ := hk
    obtain ⟨ha, hb'⟩ : i = a ∧ j + (1 + 1 * m) = b :=
      ⟨congrArg Prod.fst heq, congrArg Prod.snd heq⟩
    constructor
    · rw [mem_cells]
      left
      exact ⟨hh, by omega, by omega, by omega⟩
    · rw [horg]
      intro he
      have : a = i ∧ b = j :=
        ⟨congrArg Prod.fst he, congrArg Prod.snd he⟩
      omega
  · rintro ⟨hcell, hne⟩
    rw [mem_cells] at hcell
    rcases hcell with ⟨_, ha, h1, h2⟩ | ⟨hcontra, _⟩
    · have hbne : b ≠ j := by
        intro he
        exact hne (by rw [horg, he, ha, hr])
      refine List.mem_map.mpr ⟨b - j, ?_, ?_⟩
      · rw [List.mem_range']
        exact ⟨b - j - 1, by omega, by omega⟩
      · have : j + (b - j) = b := by omega
        rw [this, ha, hr]
    · rw [hh] at hcontra
      cases hcontra

theorem single_cells_origin {s : Ship} (hL : s.len = 1) {a b : Nat}
    (hcell : (a, b) ∈ s.cells) : (a, b) = s.origin := by
  rw [mem_cells] at hcell
  rw [Ship.origin]
  rcases hcell with ⟨_, h1, h2, h3⟩ | ⟨_, h1, h2, h3⟩ <;>
    · have : a = s.r ∧ b = s.c := by omega
      rw [this.1, this.2]

theorem decAt_fields (cnt : ShipCounts) (L : Nat) (h1 : 1 ≤ L) (h4 : L ≤ 4) :
    (decAt cnt L).c1 = cnt.c1 - (if L = 1 then 1 else 0) ∧
      (decAt cnt L).c2 = cnt.c2 - (if L = 2 then 1 else 0) ∧
      (decAt cnt L).c3 = cnt.c3 - (if L = 3 then 1 else 0) ∧
      (decAt cnt L).c4 = cnt.c4 - (if L = 4 then 1 else 0) := by
  rcases (show L = 1 ∨ L = 2 ∨ L = 3 ∨ L = 4 by omega) with rfl | rfl | rfl | rfl <;>
    simp [decAt]

/-- Processing the origin of ship `s`: the new board has exactly the
trailing cells of `s` cleared in addition, and the tally of `s.len` drops
by one; the invariant advances by one cell. -/
theorem inv_update_matched {ships : List Ship} {A : List (Nat × Nat)}
    (hpw : ships.Pairwise shipSep) (hlen : ∀ t ∈ ships, 1 ≤ t.len ∧ t.len ≤ 4)
    (hnd : ships.Nodup) {s : Ship} (hs : s ∈ ships) {i j : Nat}
    (horg : s.origin = (i, j)) (hnA : (i, j) ∉ A)
    {w : Board} {cnt : ShipCounts} (hinv : FleetInv ships A (w, cnt))
    {w' : Board} (hshape : shape10 w' = true)
    (hcells : ∀ a b, cell w' a b =
      if (a, b) ∈ s.cells ∧ (a, b) ≠ s.origin then 0 else cell w a b) :
    FleetInv ships (A ++ [(i, j)]) (w', decAt cnt s.len) := by
  obtain ⟨hsh, hcell, hc1, hc2, hc3, hc4⟩ := hinv
  have hlen1 : ∀ t ∈ ships, 1 ≤ t.len := fun t ht => (hlen t ht).1
  obtain ⟨hd1, hd2, hd3, hd4⟩ := decAt_fields cnt s.len (hlen s hs).1 (hlen s hs).2
  refine ⟨hshape, ?_, ?_, ?_, ?_, ?_⟩
  · intro a b ha hb'
    rw [hcells a b]
    by_cases htr : (a, b) ∈ s.cells ∧ (a, b) ≠ s.origin
    · rw [if_pos htr]
      have hclr : clearedP ships (A ++ [(i, j)]) a b :=
        (cleared_append_origin hpw hlen1 hs horg a b).mpr (Or.inr htr)
      rw [if_neg (fun hc' => hc'.2 hclr)]
    · rw [if_neg htr, hcell a b ha hb']
      have hiff := cleared_append_origin (A := A) hpw hlen1 hs horg a b
      by_cases hcl : clearedP ships A a b
      · have hcl' : clearedP ships (A ++ [(i, j)]) a b := hiff.mpr (Or.inl hcl)
        rw [if_neg (fun h' => h'.2 hcl), if_neg (fun h' => h'.2 hcl')]
      · have hncl' : ¬clearedP ships (A ++ [(i, j)]) a b := fun h' =>
          (hiff.mp h').elim hcl htr
        by_cases hcov : covered ships a b = true
        · rw [if_pos ⟨hcov, hcl⟩, if_pos ⟨hcov, hncl'⟩]
        · rw [if_neg (fun h' => hcov h'.1), if_neg (fun h' => hcov h'.1)]
  · rw [hd1, processed_append_origin (L := 1) hpw hlen1 hnd hs horg hnA]
    rw [hc1]
    split_ifs <;> push_cast <;> omega
  · rw [hd2, processed_append_origin (L := 2) hpw hlen1 hnd hs horg hnA]
    rw [hc2]
    split_ifs <;> push_cast <;> omega
  · rw [hd3, processed_append_origin (L := 3) hpw hlen1 hnd hs horg hnA]
    rw [hc3]
    split_ifs <;> push_cast <;> omega
  · rw [hd4, processed_append_origin (L := 4) hpw hlen1 hnd hs horg hnA]
    rw [hc4]
    split_ifs <;> push_cast <;> omega

end Battleship

namespace Battleship

theorem specDropShip_none {board : Board} {i j len : Nat}
    (hv : vertExtPure board i j len = false)
    (hh : horizExtPure board i j len = false) :
    specDropShip board i j len = (false, board) := by
  unfold specDropShip
  rw [hv, hh]
  simp

theorem specDropShip_vert {board : Board} {i j len : Nat}
    (hv : vertExtPure board i j len = true)
    (hh : horizExtPure board i j len = false) :
    specDropShip board i j len = (true, dropVertPure board i j len) := by
  unfold specDropShip
  rw [hv, hh]
  simp

theorem specDropShip_horiz {board : Board} {i j len : Nat}
    (hv : vertExtPure board i j len = false)
    (hh : horizExtPure board i j len = true) :
    specDropShip board i j len = (true, dropHorizPure board i j len) := by
  unfold specDropShip
  rw [hv, hh]
  simp

theorem fleet_step_inv {ships : List Ship}
    (hb : ∀ t ∈ ships, t.inBounds) (hpw : ships.Pairwise shipSep)
    (hlen : ∀ t ∈ ships, 1 ≤ t.len ∧ t.len ≤ 4)
    {A B : List (Nat × Nat)} {p : Nat × Nat} (hsplit : rowMajor = A ++ p :: B)
    {st : Board × ShipCounts} (hinv : FleetInv ships A st) :
    FleetInv ships (A ++ [p]) (specStep st p) := by
  obtain ⟨w, cnt⟩ := st
  obtain ⟨i, j⟩ := p
  have hlen1 : ∀ t ∈ ships, 1 ≤ t.len := fun t ht => (hlen t ht).1
  have hnd : ships.Nodup := ships_nodup hpw hlen1
  obtain ⟨hij1, hij2⟩ := split_mem_rowMajor hsplit
  have hnA : (i, j) ∉ A := split_not_mem hsplit
  have hskip : cell w i j = 0 → specStep (w, cnt) (i, j) = (w, cnt) := by
    intro h0
    unfold specStep
    rw [if_pos h0]
  by_cases hcov : covered ships i j = true
  case neg =>
    have hc0 : cell w i j = 0 := by
      rw [hinv.2.1 i j hij1 hij2, if_neg (fun h => hcov h.1)]
    rw [hskip hc0]
    apply inv_stable ?_ hinv
    intro t ht he
    exact hcov (covered_iff.mpr ⟨t, ht, he ▸ origin_mem (hlen1 t ht)⟩)
  case pos =>
    obtain ⟨s, hs, hscell⟩ := covered_iff.mp hcov
    by_cases horigin : (i, j) = s.origin
    case neg =>
      have hscell' := hscell
      rw [mem_cells] at hscell'
      have hso_lt : rmLt s.origin (i, j) := by
        unfold rmLt Ship.origin
        rcases hscell' with ⟨hh, ha, h1, h2⟩ | ⟨hh, hb', h1, h2⟩
        · right
          refine ⟨by omega, ?_⟩
          have : ¬(j = s.c) := fun he => horigin (by
            rw [Ship.origin, ← ha, ← he])
          omega
        · have : ¬(i = s.r) := fun he => horigin (by
            rw [Ship.origin, ← hb', ← he])
          left
          omega
      have horigA : s.origin ∈ A := by
        apply split_mem_left hsplit ?_ hso_lt
        apply mem_rowMajor.mpr
        have hbs := hb s hs
        exact ⟨hbs.1, hbs.2.1⟩
      have hclr : clearedP ships A i j := ⟨s, hs, horigA, hscell, horigin⟩
      have hc0 : cell w i j = 0 := by
        rw [hinv.2.1 i j hij1 hij2, if_neg (fun h => h.2 hclr)]
      rw [hskip hc0]
      apply inv_stable ?_ hinv
      intro t ht he
      have hts : t = s := cells_unique hpw ht hs (he ▸ origin_mem (hlen1 t ht)) hscell
        (by omega) (by omega) (by omega) (by omega)
      exact horigin (by rw [← hts, he])
    case pos =>
      have horg : s.origin = (i, j) := horigin.symm
      have hcne : ¬(cell w i j = 0) := by
        have hocc := inv_occ_of_ship hpw hinv hs (horg ▸ hnA)
          (horg ▸ origin_mem (hlen1 s hs)) hij1 hij2
        have hbl := board_length_eq
        rw [gnPure_coe, if_pos (by omega)] at hocc
        exact hocc
      have hvt : ∀ L', 2 ≤ L' → s.horiz = false → L' ≤ s.len →
          vertExtPure w i j L' = true := fun L' h2 hh hle =>
        (vertExt_at_origin hb hpw hlen1 hinv hs horg hnA h2).mpr ⟨hh, hle⟩
      have hvf : ∀ L', 2 ≤ L' → (s.horiz = true ∨ s.len < L') →
          vertExtPure w i j L' = false := by
        intro L' h2 hor
        rw [← Bool.not_eq_true, vertExt_at_origin hb hpw hlen1 hinv hs horg hnA h2]
        rintro ⟨hfalse, hle⟩
        rcases hor with h | h
        · rw [h] at hfalse; cases hfalse
        · omega
      have hht : ∀ L', 2 ≤ L' → s.horiz = true → L' ≤ s.len →
          horizExtPure w i j L' = true := fun L' h2 hh hle =>
        (horizExt_at_origin hb hpw hlen1 hinv hs horg hnA h2).mpr ⟨hh, hle⟩
      have hhf : ∀ L', 2 ≤ L' → (s.horiz = false ∨ s.len < L') →
          horizExtPure w i j L' = false := by
        intro L' h2 hor
        rw [← Bool.not_eq_true, horizExt_at_origin hb hpw hlen1 hinv hs horg hnA h2]
        rintro ⟨htrue, hle⟩
        rcases hor with h | h
        · rw [h] at htrue; cases htrue
        · omega
      rcases (show s.len = 1 ∨ s.len = 2 ∨ s.len = 3 ∨ s.len = 4 from by
        have := hlen s hs; omega) with hL | hL | hL | hL
      · -- length 1: nothing matches, tally 1 decremented, board unchanged
        have hstep : specStep (w, cnt) (i, j) = (w, decAt cnt 1) := by
          unfold specStep
          rw [if_neg hcne]
          simp only [specDropShip_none (hvf 4 (by omega) (Or.inr (by omega)))
              (hhf 4 (by omega) (Or.inr (by omega))),
            specDropShip_none (hvf 3 (by omega) (Or.inr (by omega)))
              (hhf 3 (by omega) (Or.inr (by omega))),
            specDropShip_none (hvf 2 (by omega) (Or.inr (by omega)))
              (hhf 2 (by omega) (Or.inr (by omega)))]
          simp
        rw [hstep, show (1 : Nat) = s.len from hL.symm]
        apply inv_update_matched hpw hlen hnd hs horg hnA hinv hinv.1
        intro a b
        rw [if_neg (fun h => h.2 (single_cells_origin hL h.1))]
      · -- length 2
        cases hdir : s.horiz
        · have hstep : specStep (w, cnt) (i, j) =
              (dropVertPure w i j 2, decAt cnt 2) := by
            unfold specStep
            rw [if_neg hcne]
            simp only [specDropShip_none (hvf 4 (by omega) (Or.inr (by omega)))
                (hhf 4 (by omega) (Or.inr (by omega))),
              specDropShip_none (hvf 3 (by omega) (Or.inr (by omega)))
                (hhf 3 (by omega) (Or.inr (by omega))),
              specDropShip_vert (hvt 2 (by omega) hdir (by omega))
                (hhf 2 (by omega) (Or.inl hdir))]
            simp
          rw [hstep, show (2 : Nat) = s.len from hL.symm]
          apply inv_update_matched hpw hlen hnd hs horg hnA hinv
          · rw [dropVertPure, shape10_clearList]
            exact hinv.1
          · intro a b
            rw [dropVertPure, cell_clearList]
            simp only [trailing_vert hdir horg a b]
        · have hstep : specStep (w, cnt) (i, j) =
              (dropHorizPure w i j 2, decAt cnt 2) := by
            unfold specStep
            rw [if_neg hcne]
            simp only [specDropShip_none (hvf 4 (by omega) (Or.inr (by omega)))
                (hhf 4 (by omega) (Or.inr (by omega))),
              specDropShip_none (hvf 3 (by omega) (Or.inr (by omega)))
                (hhf 3 (by omega) (Or.inr (by omega))),
              specDropShip_horiz (hvf 2 (by omega) (Or.inl hdir))
                (hht 2 (by omega) hdir (by omega))]
            simp
          rw [hstep, show (2 : Nat) = s.len from hL.symm]
          apply inv_update_matched hpw hlen hnd hs horg hnA hinv
          · rw [dropHorizPure, shape10_clearList]
            exact hinv.1
          · intro a b
            rw [dropHorizPure, cell_clearList]
            simp only [trailing_horiz hdir horg a b]
      · -- length 3
        cases hdir : s.horiz
        · have hstep : specStep (w, cnt) (i, j) =
              (dropVertPure w i j 3, decAt cnt 3) := by
            unfold specStep
            rw [if_neg hcne]
            simp only [specDropShip_none (hvf 4 (by omega) (Or.inr (by omega)))
                (hhf 4 (by omega) (Or.inr (by omega))),
              specDropShip_vert (hvt 3 (by omega) hdir (by omega))
                (hhf 3 (by omega) (Or.inl hdir))]
            simp
          rw [hstep, show (3 : Nat) = s.len from hL.symm]
          apply inv_update_matched hpw hlen hnd hs horg hnA hinv
          · rw [dropVertPure, shape10_clearList]
            exact hinv.1
          · intro a b
            rw [dropVertPure, cell_clearList]
            simp only [trailing_vert hdir horg a b]
        · have hstep : specStep (w, cnt) (i, j) =
              (dropHorizPure w i j 3, decAt cnt 3) := by
            unfold specStep
            rw [if_neg hcne]
            simp only [specDropShip_none (hvf 4 (by omega) (Or.inr (by omega)))
                (hhf 4 (by omega) (Or.inr (by omega))),
              specDropShip_horiz (hvf 3 (by omega) (Or.inl hdir))
                (hht 3 (by omega) hdir (by omega))]
            simp
          rw [hstep, show (3 : Nat) = s.len from hL.symm]
          apply inv_update_matched hpw hlen hnd hs horg hnA hinv
          · rw [dropHorizPure, shape10_clearList]
            exact hinv.1
          · intro a b
            rw [dropHorizPure, cell_clearList]
            simp only [trailing_horiz hdir horg a b]
      · -- length 4
        cases hdir : s.horiz
        · have hstep : specStep (w, cnt) (i, j) =
              (dropVertPure w i j 4, decAt cnt 4) := by
            unfold specStep
            rw [if_neg hcne]
            simp only [specDropShip_vert (hvt 4 (by omega) hdir (by omega))
                (hhf 4 (by omega) (Or.inl hdir))]
            simp
          rw [hstep, show (4 : Nat) = s.len from hL.symm]
          apply inv_update_matched hpw hlen hnd hs horg hnA hinv
          · rw [dropVertPure, shape10_clearList]
            exact hinv.1
          · intro a b
            rw [dropVertPure, cell_clearList]
            simp only [trailing_vert hdir horg a b]
        · have hstep : specStep (w, cnt) (i, j) =
              (dropHorizPure w i j 4, decAt cnt 4) := by
            unfold specStep
            rw [if_neg hcne]
            simp only [specDropShip_horiz (hvf 4 (by omega) (Or.inl hdir))
                (hht 4 (by omega) hdir (by omega))]
            simp
          rw [hstep, show (4 : Nat) = s.len from hL.symm]
          apply inv_update_matched hpw hlen hnd hs horg hnA hinv
          · rw [dropHorizPure, shape10_clearList]
            exact hinv.1
          · intro a b
            rw [dropHorizPure, cell_clearList]
            simp only [trailing_horiz hdir horg a b]

end Battleship

namespace Battleship

theorem fleet_scan_inv {ships : List Ship}
    (hb : ∀ t ∈ ships, t.inBounds) (hpw : ships.Pairwise shipSep)
    (hlen : ∀ t ∈ ships, 1 ≤ t.len ∧ t.len ≤ 4) :
    ∀ (B A : List (Nat × Nat)) (st : Board × ShipCounts),
      rowMajor = A ++ B → FleetInv ships A st →
      FleetInv ships (A ++ B) (B.foldl specStep st) := by
  intro B
  induction B with
  | nil =>
    intro A st _ hinv
    rw [List.foldl_nil, List.append_nil]
    exact hinv
  | cons p B ih =>
    intro A st hsplit hinv
    rw [List.foldl_cons]
    have h1 := fleet_step_inv hb hpw hlen hsplit hinv
    have hsplit' : rowMajor = (A ++ [p]) ++ B := by
      rw [hsplit, List.append_assoc]
      rfl
    have h2 := ih (A ++ [p]) (specStep st p) hsplit' h1
    rw [List.append_assoc] at h2
    exact h2

theorem fleet_init (ships : List Ship) :
    FleetInv ships [] (render ships, initCounts) := by
  have hnc : ∀ a b : Nat, ¬clearedP ships [] a b := by
    rintro a b ⟨t, _, hA, _⟩
    cases hA
  refine ⟨shape10_render ships, ?_, ?_, ?_, ?_, ?_⟩
  · intro a b ha hb'
    rw [cell_render, if_pos ⟨ha, hb'⟩]
    simp [hnc a b]
  all_goals simp [processedCount, initCounts]

theorem processed_all {ships : List Ship} (hb : ∀ t ∈ ships, t.inBounds) (L : Nat) :
    processedCount ships rowMajor L = (ships.map Ship.len).count L := by
  unfold processedCount
  rw [List.count_eq_countP, List.countP_map]
  apply List.countP_congr
  intro t ht
  have hmem : t.origin ∈ rowMajor := mem_rowMajor.mpr ⟨(hb t ht).1, (hb t ht).2.1⟩
  simp [hmem, Function.comp]

theorem fleet_final {ships : List Ship} (hb : ∀ t ∈ ships, t.inBounds)
    (hperm : (ships.map Ship.len).Perm [4, 3, 3, 2, 2, 2, 1, 1, 1, 1])
    {st : Board × ShipCounts} (hinv : FleetInv ships rowMajor st) :
    st.2 = zeroCounts := by
  obtain ⟨_, _, h1, h2, h3, h4⟩ := hinv
  have e1 : processedCount ships rowMajor 1 = 4 := by
    rw [processed_all hb, hperm.count_eq 1]
    rfl
  have e2 : processedCount ships rowMajor 2 = 3 := by
    rw [processed_all hb, hperm.count_eq 2]
    rfl
  have e3 : processedCount ships rowMajor 3 = 2 := by
    rw [processed_all hb, hperm.count_eq 3]
    rfl
  have e4 : processedCount ships rowMajor 4 = 1 := by
    rw [processed_all hb, hperm.count_eq 4]
    rfl
  have heta : st.2 = ⟨st.2.c1, st.2.c2, st.2.c3, st.2.c4⟩ := rfl
  rw [heta, h1, h2, h3, h4, e1, e2, e3, e4]
  rfl

theorem perm_len_bounds {ships : List Ship}
    (hperm : (ships.map Ship.len).Perm [4, 3, 3, 2, 2, 2, 1, 1, 1, 1]) :
    ∀ t ∈ ships, 1 ≤ t.len ∧ t.len ≤ 4 := by
  intro t ht
  have hmem : t.len ∈ [4, 3, 3, 2, 2, 2, 1, 1, 1, 1] :=
    hperm.mem_iff.mp (List.mem_map.mpr ⟨t, ht, rfl⟩)
  simp at hmem
  omega

theorem specFleetScan_render {ships : List Ship}
    (hb : ∀ t ∈ ships, t.inBounds) (hpw : ships.Pairwise shipSep)
    (hperm : (ships.map Ship.len).Perm [4, 3, 3, 2, 2, 2, 1, 1, 1, 1]) :
    specFleetScan (render ships) = true := by
  have hlen : ∀ t ∈ ships, 1 ≤ t.len ∧ t.len ≤ 4 := perm_len_bounds hperm
  have h := fleet_scan_inv hb hpw hlen rowMajor [] (render ships, initCounts)
    (by rw [List.nil_append]) (fleet_init ships)
  rw [List.nil_append] at h
  unfold specFleetScan
  rw [fleet_final hb hperm h]
  rfl

end Battleship

namespace Battleship

theorem gnPure_render_int (ships : List Ship) (a b : Int) :
    gnPure (render ships) a b =
      if 0 ≤ a ∧ a < 10 ∧ 0 ≤ b ∧ b < 10 ∧ covered ships a.toNat b.toNat = true
      then 1 else 0 := by
  have hbl := board_length_eq
  unfold gnPure
  by_cases hg : 0 ≤ a ∧ a < (board_length : Int) ∧ 0 ≤ b ∧ b < (board_length : Int)
  · rw [if_pos hg, cell_render, if_pos ⟨by omega, by omega⟩]
    by_cases hc : covered ships a.toNat b.toNat = true
    · rw [if_pos hc, if_pos ⟨by omega, by omega, by omega, by omega, hc⟩]
    · rw [if_neg hc, if_neg (fun h => hc h.2.2.2.2)]
  · rw [if_neg hg, if_neg (fun h => hg ⟨h.1, by omega, h.2.2.1, by omega⟩)]

theorem gnPure_render_le_one (ships : List Ship) (a b : Int) :
    gnPure (render ships) a b ≤ 1 := by
  rw [gnPure_render_int]
  split <;> omega

/-- A cell close to a ship's cell but not on that ship is empty on the
rendered board. -/
theorem gnPure_render_zero {ships : List Ship} (hpw : ships.Pairwise shipSep)
    {s : Ship} (hs : s ∈ ships) {i j : Nat} (hcell : (i, j) ∈ s.cells)
    (a b : Int) (h1 : (i : Int) - 1 ≤ a) (h2 : a ≤ (i : Int) + 1)
    (h3 : (j : Int) - 1 ≤ b) (h4 : b ≤ (j : Int) + 1)
    (hnot : ¬(0 ≤ a ∧ 0 ≤ b ∧ (a.toNat, b.toNat) ∈ s.cells)) :
    gnPure (render ships) a b = 0 := by
  rw [gnPure_render_int]
  rw [if_neg ?_]
  rintro ⟨ha0, ha10, hb0, hb10, hcov⟩
  obtain ⟨t, ht, htc⟩ := covered_iff.mp hcov
  have hts : t = s := cells_unique hpw ht hs htc hcell
    (by omega) (by omega) (by omega) (by omega)
  rw [hts] at htc
  exact hnot ⟨ha0, hb0, htc⟩

theorem straight_ok_ud (u d : Nat) (hu : u ≤ 1) (hd : d ≤ 1) :
    straight_ok 0 0 u d = true := by
  rcases (show u = 0 ∨ u = 1 by omega) with rfl | rfl <;>
    rcases (show d = 0 ∨ d = 1 by omega) with rfl | rfl <;> decide

theorem straight_ok_lr (l r : Nat) (hl : l ≤ 1) (hr : r ≤ 1) :
    straight_ok l r 0 0 = true := by
  rcases (show l = 0 ∨ l = 1 by omega) with rfl | rfl <;>
    rcases (show r = 0 ∨ r = 1 by omega) with rfl | rfl <;> decide

/-- Every occupied cell of a rendered, separated fleet passes both contact
checks. -/
theorem shipsPure_render {ships : List Ship} (hpw : ships.Pairwise shipSep) :
    shipsPure (render ships) = true := by
  rw [shipsPure, List.all_eq_true]
  intro p hp
  rw [allCells_eq_rowMajor (shape10_render ships)] at hp
  obtain ⟨i, j⟩ := p
  obtain ⟨hi, hj⟩ := mem_rowMajor.mp hp
  by_cases hcov : covered ships i j = true
  case neg =>
    have hc0 : cell (render ships) i j = 0 := by
      rw [cell_render, if_pos ⟨hi, hj⟩, if_neg hcov]
    simp [hc0]
  case pos =>
    obtain ⟨s, hs, hscell⟩ := covered_iff.mp hcov
    have hmc := mem_cells.mp hscell
    have hdiag : ∀ a b : Int,
        ((i : Int) - 1 ≤ a) → (a ≤ (i : Int) + 1) → ((j : Int) - 1 ≤ b) →
        (b ≤ (j : Int) + 1) → (a ≠ (i : Int)) → (b ≠ (j : Int)) →
        gnPure (render ships) a b = 0 := by
      intro a b h1 h2 h3 h4 hna hnb
      apply gnPure_render_zero hpw hs hscell a b h1 h2 h3 h4
      rintro ⟨ha0, hb0, hmem⟩
      rw [mem_cells] at hmem
      rcases hmc with ⟨hh1, hr, _⟩ | ⟨hh1, hc, _⟩ <;>
        rcases hmem with ⟨hh2, hr', _⟩ | ⟨hh2, hc', _⟩
      · omega
      · rw [hh1] at hh2; simp at hh2
      · rw [hh1] at hh2; simp at hh2
      · omega
    have hcheck2 : check2Pure (render ships) i j = true := by
      rw [check2Pure,
        hdiag _ _ (by omega) (by omega) (by omega) (by omega) (by omega) (by omega),
        hdiag _ _ (by omega) (by omega) (by omega) (by omega) (by omega) (by omega),
        hdiag _ _ (by omega) (by omega) (by omega) (by omega) (by omega) (by omega),
        hdiag _ _ (by omega) (by omega) (by omega) (by omega) (by omega) (by omega)]
      rfl
    have hcheck1 : check1Pure (render ships) i j = true := by
      rw [check1Pure]
      rcases hmc with ⟨hh, hr, _⟩ | ⟨hh, hc, _⟩
      · -- horizontal ship: the row neighbors are empty
        have hup : gnPure (render ships) ((i : Int) - 1) (j : Int) = 0 := by
          apply gnPure_render_zero hpw hs hscell _ _ (by omega) (by omega) (by omega)
            (by omega)
          rintro ⟨ha0, _, hmem⟩
          rw [mem_cells] at hmem
          rcases hmem with ⟨_, hr', _⟩ | ⟨hh', _⟩
          · omega
          · rw [hh] at hh'
            cases hh'
        have hdown : gnPure (render ships) ((i : Int) + 1) (j : Int) = 0 := by
          apply gnPure_render_zero hpw hs hscell _ _ (by omega) (by omega) (by omega)
            (by omega)
          rintro ⟨ha0, _, hmem⟩
          rw [mem_cells] at hmem
          rcases hmem with ⟨_, hr', _⟩ | ⟨hh', _⟩
          · omega
          · rw [hh] at hh'
            cases hh'
        rw [hup, hdown]
        exact straight_ok_ud _ _ (gnPure_render_le_one ships _ _)
          (gnPure_render_le_one ships _ _)
      · -- vertical ship: the column neighbors are empty
        have hleft : gnPure (render ships) (i : Int) ((j : Int) - 1) = 0 := by
          apply gnPure_render_zero hpw hs hscell _ _ (by omega) (by omega) (by omega)
            (by omega)
          rintro ⟨_, hb0, hmem⟩
          rw [mem_cells] at hmem
          rcases hmem with ⟨hh', _⟩ | ⟨_, hc', _⟩
          · rw [hh] at hh'
            cases hh'
          · omega
        have hright : gnPure (render ships) (i : Int) ((j : Int) + 1) = 0 := by
          apply gnPure_render_zero hpw hs hscell _ _ (by omega) (by omega) (by omega)
            (by omega)
          rintro ⟨_, hb0, hmem⟩
          rw [mem_cells] at hmem
          rcases hmem with ⟨hh', _⟩ | ⟨_, hc', _⟩
          · rw [hh] at hh'
            cases hh'
          · omega
        rw [hleft, hright]
        exact straight_ok_lr _ _ (gnPure_render_le_one ships _ _)
          (gnPure_render_le_one ships _ _)
    simp [hcheck1, hcheck2]

end Battleship

namespace Battleship

/-- C6: a 10x10 grid populated with exactly one 4-length, two 3-length,
three 2-length and four 1-length straight ships, each in bounds and
separated from every other ship by at least one empty cell in every
orthogonal and diagonal direction, is accepted by `validate_battlefield`. -/
theorem claim6_valid_fleet (ships : List Ship)
    (hb : ∀ s ∈ ships, s.inBounds) (hpw : ships.Pairwise shipSep)
    (hperm : (ships.map Ship.len).Perm [4, 3, 3, 2, 2, 2, 1, 1, 1, 1]) :
    validate_battlefield (render ships) = .ok true := by
  have h10 := shape10_render ships
  rw [validate_battlefield_eq, h10, shipsPure_render hpw,
    quantityPure_eq_specFleetScan h10, specFleetScan_render hb hpw hperm]
  rfl

/-- A concrete full fleet placement. -/
def fleetWitness : List Ship :=
  [⟨0, 0, true, 4⟩, ⟨2, 0, true, 3⟩, ⟨2, 4, true, 3⟩, ⟨4, 0, true, 2⟩,
   ⟨4, 3, true, 2⟩, ⟨4, 6, true, 2⟩, ⟨6, 0, true, 1⟩, ⟨6, 2, true, 1⟩,
   ⟨6, 4, true, 1⟩, ⟨6, 6, true, 1⟩]

theorem claim6_witness :
    (∀ s ∈ fleetWitness, s.inBounds) ∧ fleetWitness.Pairwise shipSep ∧
      (fleetWitness.map Ship.len).Perm [4, 3, 3, 2, 2, 2, 1, 1, 1, 1] ∧
      validate_battlefield (render fleetWitness) = .ok true :=
  ⟨by decide, by decide, by decide,
    claim6_valid_fleet fleetWitness (by decide) (by decide) (by decide)⟩

end Battleship
